import Mathlib

/-! UniqueKey (euleristic/UniqueKey, `unique-key/unique-key.hpp`)

A shallow embedding of the two `UniqueKey` class templates and a verification of their
ownership contract.

Embedding:

* A callable held in a `std::function` is a state transformer on an abstract world `W`
  (everything a user-supplied action can observe or change): a release action is
  `Ty → W → W`, a duplication action is `Ty → W → Ty × W`.  Callables are assumed to return
  normally and not to touch the guards themselves.
* Guards live in a store, `Addr → Option UniqueKey`.  Every member function is a function
  `State → Option State`; `none` means that an address that holds no live object was used
  (or that an object was constructed over a live one).  References are addresses, so
  aliasing (`x = std::move(x)`, `swap(a, a)`) is expressed by passing the same address twice.
* Member functions are executed statement by statement, each statement reading and writing
  the store through the addresses, in the order of the source.
* A call that the compiler rejects yields no store (`none`).  This is the embedding of the
  deleted copy operations of the specialisation and of the three operators whose bodies are
  ill-formed: the two move assignments and the copy assignment (`assignMoveStrict`,
  `assignCopyStrict`).
* The test `this != !other` of the move-assignment operators compares a pointer with a
  `bool` prvalue, which ISO C++ rejects.  `assignMove` is the body as a compiler that
  accepts the comparison (g++ with `-fpermissive`) runs it: the boolean is read as the
  address 0 or 1 (`ptrNeBool`); the test is not replaced by `this != &other`.
* Copy assignment is `swap(*this, other)` with `other` a reference to const, which cannot
  bind to the friend `swap`, so no compiler accepts it.  `assignCopy` is the statement with
  the const qualifier disregarded, `swap` applied to the source object itself; it shows
  what the written statement would do and is not behaviour of a compiled program.
* An initializer, `std::function<Type()>`, is `W → Except E Ty × W`: it may signal a failure
  instead of returning a handle.  An initializer constructor returns the outcome together
  with the store.
* The friend `swap` of the specialisation is embedded as written, in terms of the deleted
  copy operations.
* The template parameter `nullValue` is an explicit argument `nullValue : Ty`.
* The primary template (`COPYABLE = true`) is `Copyable.UniqueKey`; the specialisation
  `UniqueKey<Type, nullValue, false>` is `NonCopyable.UniqueKey`.
-/

namespace euleristic

/-! ## Addresses, callables, store -/

/-- Address of a guard object.  No object lives at the null address 0, and a guard, which
holds `std::function` members, is aligned to more than one byte, so it does not live at
address 1 either. -/
structure Addr where
  val : Nat
  valid : 2 ≤ val
deriving DecidableEq

/-- Release callable, `std::function<void(Type)>`. -/
abbrev Deleter (Ty W : Type) := Ty → W → W

/-- Duplication callable, `std::function<Type(Type)>`. -/
abbrev Copier (Ty W : Type) := Ty → W → Ty × W

/-- The function template `NoOp`: `void NoOp(Args&&...args) { /*Empty*/ }`, at `NoOp<Type>`. -/
def NoOp {Ty W : Type} : Deleter Ty W := fun _ w => w

/-- The function object `std::identity{}` stored in a `std::function<Type(Type)>`. -/
def identity {Ty W : Type} : Copier Ty W := fun v w => (v, w)

/-- The store of live objects of type `G` together with the world `W` the callables act on. -/
structure State (G W : Type) where
  mem : Addr → Option G
  world : W

/-- Store `g` at address `a`. -/
def State.write {G W : Type} (st : State G W) (a : Addr) (g : G) : State G W :=
  { mem := Function.update st.mem a (some g), world := st.world }

/-- End the lifetime of the object at address `a`. -/
def State.free {G W : Type} (st : State G W) (a : Addr) : State G W :=
  { mem := Function.update st.mem a none, world := st.world }

/-- The comparison `this != !other` of both move-assignment operators as a compiler that
accepts it (g++ with `-fpermissive`) evaluates it: the pointer `this` against the boolean
`!other`, which as an address is 0 (`false`) or 1 (`true`).  ISO C++ rejects the
comparison; see `assignMoveStrict`. -/
def ptrNeBool (p : Addr) (b : Bool) : Bool :=
  p.val != (if b then 1 else 0)

/-- The release action of the scenarios: it pushes its argument to the audit log. -/
def audit {Ty : Type} : Deleter Ty (List Ty) := fun v log => log ++ [v]

/-- The store with no live object and an empty audit log. -/
def emptyState {G Ty : Type} : State G (List Ty) :=
  { mem := fun _ => none, world := [] }

/-! ## The specialisation `UniqueKey<Type, nullValue, false>` -/

namespace NonCopyable

/-- Data members of `UniqueKey<Type, nullValue, false>`. -/
structure UniqueKey (Ty W : Type) where
  value : Ty
  deleter : Deleter Ty W

/-- Store of unique-mode guards. -/
abbrev St (Ty W : Type) := State (UniqueKey Ty W) W

/-- Default constructor: `UniqueKey() : value(nullValue), deleter(NoOp<Type>) {}`. -/
def ctorDefault {Ty W : Type} (nullValue : Ty) (this : Addr) (st : St Ty W) : Option (St Ty W) :=
  match st.mem this with
  | some _ => none
  | none => some (st.write this { value := nullValue, deleter := NoOp })

/-- Value constructor: `UniqueKey(const Type value, std::function<void(Type)> deleter)`. -/
def ctorValue {Ty W : Type} (this : Addr) (value : Ty) (deleter : Deleter Ty W)
    (st : St Ty W) : Option (St Ty W) :=
  match st.mem this with
  | some _ => none
  | none => some (st.write this { value := value, deleter := deleter })

/-- Destructor: `~UniqueKey() { deleter(value); }`, after which the object is gone. -/
def dtor {Ty W : Type} (this : Addr) (st : St Ty W) : Option (St Ty W) :=
  match st.mem this with
  | none => none
  | some self =>
    some { mem := Function.update st.mem this none, world := self.deleter self.value st.world }

/-- Move constructor: `value(std::exchange(other.value, nullValue))`,
`deleter(std::exchange(other.deleter, NoOp<Type>))`. -/
def ctorMove {Ty W : Type} (nullValue : Ty) (this other : Addr) (st : St Ty W) :
    Option (St Ty W) :=
  match st.mem this, st.mem other with
  | none, some o =>
    let v := o.value
    let st1 := st.write other { o with value := nullValue }
    let d := o.deleter
    let st2 := st1.write other { value := nullValue, deleter := NoOp }
    some (st2.write this { value := v, deleter := d })
  | _, _ => none

/-- The statement `deleter(value);` executed on the object at `this`. -/
def callDeleter {Ty W : Type} (this : Addr) (st : St Ty W) : Option (St Ty W) :=
  match st.mem this with
  | none => none
  | some self => some { mem := st.mem, world := self.deleter self.value st.world }

/-- The call `std::exchange(obj.value, newValue)`: returns the old value. -/
def exchangeValue {Ty W : Type} (obj : Addr) (newValue : Ty) (st : St Ty W) :
    Option (Ty × St Ty W) :=
  match st.mem obj with
  | none => none
  | some o => some (o.value, st.write obj { o with value := newValue })

/-- The call `std::exchange(obj.deleter, newDeleter)`: returns the old callable. -/
def exchangeDeleter {Ty W : Type} (obj : Addr) (newDeleter : Deleter Ty W) (st : St Ty W) :
    Option (Deleter Ty W × St Ty W) :=
  match st.mem obj with
  | none => none
  | some o => some (o.deleter, st.write obj { o with deleter := newDeleter })

/-- The assignment `value = v;` on the object at `this`. -/
def setValue {Ty W : Type} (this : Addr) (v : Ty) (st : St Ty W) : Option (St Ty W) :=
  match st.mem this with
  | none => none
  | some self => some (st.write this { self with value := v })

/-- The assignment `deleter = d;` on the object at `this`. -/
def setDeleter {Ty W : Type} (this : Addr) (d : Deleter Ty W) (st : St Ty W) :
    Option (St Ty W) :=
  match st.mem this with
  | none => none
  | some self => some (st.write this { self with deleter := d })

/-- Conversion `explicit operator bool() const { return value != nullValue; }`. -/
def toBool {Ty W : Type} [DecidableEq Ty] (nullValue : Ty) (self : UniqueKey Ty W) : Bool :=
  self.value != nullValue

/-- Accessor `Type operator*() const { return value; }`. -/
def deref {Ty W : Type} (self : UniqueKey Ty W) : Ty := self.value

/-- Accessor `Type Get() const { return value; }`. -/
def Get {Ty W : Type} (self : UniqueKey Ty W) : Ty := self.value

/-- Move assignment `operator=(UniqueKey&& other)`:
`if (this != !other) { deleter(value); value = std::exchange(other.value, nullValue);
deleter = std::exchange(other.deleter, NoOp<Type>); } return *this;`, as it runs in a build
that accepts the comparison (g++ with `-fpermissive`).  For ISO C++ see
`assignMoveStrict`. -/
def assignMove {Ty W : Type} [DecidableEq Ty] (nullValue : Ty) (this other : Addr)
    (st : St Ty W) : Option (St Ty W) :=
  match st.mem this, st.mem other with
  | some _, some o =>
    if ptrNeBool this (!(toBool nullValue o)) then do
      let st1 ← callDeleter this st
      let (v, st2) ← exchangeValue other nullValue st1
      let st3 ← setValue this v st2
      let (d, st4) ← exchangeDeleter other NoOp st3
      setDeleter this d st4
    else
      some st
  | _, _ => none

/-- Raw assignment `operator=(const Type newValue) { deleter(value); value = newValue; }`. -/
def assignValue {Ty W : Type} (this : Addr) (newValue : Ty) (st : St Ty W) :
    Option (St Ty W) := do
  let st1 ← callDeleter this st
  setValue this newValue st1

/-- The raw assignments `G = v1; ...; G = vk` in sequence. -/
def assignValues {Ty W : Type} (this : Addr) : List Ty → St Ty W → Option (St Ty W)
  | [], st => some st
  | v :: vs, st =>
    match assignValue this v st with
    | none => none
    | some st1 => assignValues this vs st1

end NonCopyable

/-! ## The primary template `UniqueKey<Type, nullValue, COPYABLE = true>` -/

namespace Copyable

/-- Data members of the primary template. -/
structure UniqueKey (Ty W : Type) where
  value : Ty
  copier : Copier Ty W
  deleter : Deleter Ty W

/-- Store of duplicable-mode guards. -/
abbrev St (Ty W : Type) := State (UniqueKey Ty W) W

/-- Default constructor:
`UniqueKey() : value(nullValue), copier(std::identity{}), deleter(NoOp<Type>) {}`. -/
def ctorDefault {Ty W : Type} (nullValue : Ty) (this : Addr) (st : St Ty W) : Option (St Ty W) :=
  match st.mem this with
  | some _ => none
  | none => some (st.write this { value := nullValue, copier := identity, deleter := NoOp })

/-- Value constructor: `UniqueKey(const Type value, copier, deleter)`. -/
def ctorValue {Ty W : Type} (this : Addr) (value : Ty) (copier : Copier Ty W)
    (deleter : Deleter Ty W) (st : St Ty W) : Option (St Ty W) :=
  match st.mem this with
  | some _ => none
  | none => some (st.write this { value := value, copier := copier, deleter := deleter })

/-- Destructor: `~UniqueKey() { deleter(value); }`, after which the object is gone. -/
def dtor {Ty W : Type} (this : Addr) (st : St Ty W) : Option (St Ty W) :=
  match st.mem this with
  | none => none
  | some self =>
    some { mem := Function.update st.mem this none, world := self.deleter self.value st.world }

/-- Copy constructor: `value(other.copier(other.value)), copier(other.copier),
deleter(other.deleter)`; `other` is a reference to const and is not written. -/
def ctorCopy {Ty W : Type} (this other : Addr) (st : St Ty W) : Option (St Ty W) :=
  match st.mem this, st.mem other with
  | none, some o =>
    let r := o.copier o.value st.world
    some { mem := Function.update st.mem this
                    (some { value := r.1, copier := o.copier, deleter := o.deleter }),
           world := r.2 }
  | _, _ => none

/-- Move constructor: `value(std::exchange(other.value, nullValue))`,
`copier(std::exchange(other.copier, std::identity{}))`,
`deleter(std::exchange(other.deleter, NoOp<Type>))`. -/
def ctorMove {Ty W : Type} (nullValue : Ty) (this other : Addr) (st : St Ty W) :
    Option (St Ty W) :=
  match st.mem this, st.mem other with
  | none, some o =>
    let v := o.value
    let st1 := st.write other { o with value := nullValue }
    let c := o.copier
    let st2 := st1.write other { value := nullValue, copier := identity, deleter := o.deleter }
    let d := o.deleter
    let st3 := st2.write other { value := nullValue, copier := identity, deleter := NoOp }
    some (st3.write this { value := v, copier := c, deleter := d })
  | _, _ => none

/-- The statement `deleter(value);` executed on the object at `this`. -/
def callDeleter {Ty W : Type} (this : Addr) (st : St Ty W) : Option (St Ty W) :=
  match st.mem this with
  | none => none
  | some self => some { mem := st.mem, world := self.deleter self.value st.world }

/-- The call `std::exchange(obj.value, newValue)`: returns the old value. -/
def exchangeValue {Ty W : Type} (obj : Addr) (newValue : Ty) (st : St Ty W) :
    Option (Ty × St Ty W) :=
  match st.mem obj with
  | none => none
  | some o => some (o.value, st.write obj { o with value := newValue })

/-- The call `std::exchange(obj.copier, newCopier)`: returns the old callable. -/
def exchangeCopier {Ty W : Type} (obj : Addr) (newCopier : Copier Ty W) (st : St Ty W) :
    Option (Copier Ty W × St Ty W) :=
  match st.mem obj with
  | none => none
  | some o => some (o.copier, st.write obj { o with copier := newCopier })

/-- The call `std::exchange(obj.deleter, newDeleter)`: returns the old callable. -/
def exchangeDeleter {Ty W : Type} (obj : Addr) (newDeleter : Deleter Ty W) (st : St Ty W) :
    Option (Deleter Ty W × St Ty W) :=
  match st.mem obj with
  | none => none
  | some o => some (o.deleter, st.write obj { o with deleter := newDeleter })

/-- The assignment `value = v;` on the object at `this`. -/
def setValue {Ty W : Type} (this : Addr) (v : Ty) (st : St Ty W) : Option (St Ty W) :=
  match st.mem this with
  | none => none
  | some self => some (st.write this { self with value := v })

/-- The assignment `copier = c;` on the object at `this`. -/
def setCopier {Ty W : Type} (this : Addr) (c : Copier Ty W) (st : St Ty W) :
    Option (St Ty W) :=
  match st.mem this with
  | none => none
  | some self => some (st.write this { self with copier := c })

/-- The assignment `deleter = d;` on the object at `this`. -/
def setDeleter {Ty W : Type} (this : Addr) (d : Deleter Ty W) (st : St Ty W) :
    Option (St Ty W) :=
  match st.mem this with
  | none => none
  | some self => some (st.write this { self with deleter := d })

/-- Conversion `explicit operator bool() const { return value != nullValue; }`. -/
def toBool {Ty W : Type} [DecidableEq Ty] (nullValue : Ty) (self : UniqueKey Ty W) : Bool :=
  self.value != nullValue

/-- Accessor `Type operator*() const { return value; }`. -/
def deref {Ty W : Type} (self : UniqueKey Ty W) : Ty := self.value

/-- Accessor `Type Get() const { return value; }`. -/
def Get {Ty W : Type} (self : UniqueKey Ty W) : Ty := self.value

/-- Move assignment `operator=(UniqueKey&& other)`:
`if (this != !other) { deleter(value); value = std::exchange(other.value, nullValue);
copier = std::exchange(other.copier, std::identity{});
deleter = std::exchange(other.deleter, NoOp<Type>); } return *this;`, as it runs in a build
that accepts the comparison (g++ with `-fpermissive`).  For ISO C++ see
`assignMoveStrict`. -/
def assignMove {Ty W : Type} [DecidableEq Ty] (nullValue : Ty) (this other : Addr)
    (st : St Ty W) : Option (St Ty W) :=
  match st.mem this, st.mem other with
  | some _, some o =>
    if ptrNeBool this (!(toBool nullValue o)) then do
      let st1 ← callDeleter this st
      let (v, st2) ← exchangeValue other nullValue st1
      let st3 ← setValue this v st2
      let (c, st4) ← exchangeCopier other identity st3
      let st5 ← setCopier this c st4
      let (d, st6) ← exchangeDeleter other NoOp st5
      setDeleter this d st6
    else
      some st
  | _, _ => none

/-- The call `swap(lhs.value, rhs.value)` (`std::swap`): `tmp = lhs.value;
lhs.value = rhs.value; rhs.value = tmp`. -/
def swapValue {Ty W : Type} (lhs rhs : Addr) (st : St Ty W) : Option (St Ty W) :=
  match st.mem lhs, st.mem rhs with
  | some l, some r => do
    let st1 ← setValue lhs r.value st
    setValue rhs l.value st1
  | _, _ => none

/-- The call `swap(lhs.copier, rhs.copier)`, exchanging the two stored callables. -/
def swapCopier {Ty W : Type} (lhs rhs : Addr) (st : St Ty W) : Option (St Ty W) :=
  match st.mem lhs, st.mem rhs with
  | some l, some r => do
    let st1 ← setCopier lhs r.copier st
    setCopier rhs l.copier st1
  | _, _ => none

/-- The call `swap(lhs.deleter, rhs.deleter)`, exchanging the two stored callables. -/
def swapDeleter {Ty W : Type} (lhs rhs : Addr) (st : St Ty W) : Option (St Ty W) :=
  match st.mem lhs, st.mem rhs with
  | some l, some r => do
    let st1 ← setDeleter lhs r.deleter st
    setDeleter rhs l.deleter st1
  | _, _ => none

/-- The friend function `swap(UniqueKey& lhs, UniqueKey& rhs)`: `swap(lhs.value, rhs.value);
swap(lhs.copier, rhs.copier); swap(lhs.deleter, rhs.deleter);`. -/
def swap {Ty W : Type} (lhs rhs : Addr) (st : St Ty W) : Option (St Ty W) := do
  let st1 ← swapValue lhs rhs st
  let st2 ← swapCopier lhs rhs st1
  swapDeleter lhs rhs st2

/-- Copy assignment `operator=(const UniqueKey& other) { swap(*this, other); return *this; }`
with the const qualifier of `other` disregarded: the friend `swap` applied to `*this` and to
the source object itself.  No compiler accepts the statement (see `assignCopyStrict`); this
definition records what the written statement would do. -/
def assignCopy {Ty W : Type} (this other : Addr) (st : St Ty W) : Option (St Ty W) :=
  swap this other st

/-- Raw assignment `operator=(const Type newValue) { deleter(value); value = newValue; }`. -/
def assignValue {Ty W : Type} (this : Addr) (newValue : Ty) (st : St Ty W) :
    Option (St Ty W) := do
  let st1 ← callDeleter this st
  setValue this newValue st1

/-- The raw assignments `G = v1; ...; G = vk` in sequence. -/
def assignValues {Ty W : Type} (this : Addr) : List Ty → St Ty W → Option (St Ty W)
  | [], st => some st
  | v :: vs, st =>
    match assignValue this v st with
    | none => none
    | some st1 => assignValues this vs st1

end Copyable

/-- Initial store of the duplicable-mode scenarios (T = integer): no guard, empty log. -/
def Copyable.start : Copyable.St Int (List Int) := emptyState

/-- Initial store of the unique-mode scenarios (T = integer): no guard, empty log. -/
def NonCopyable.start : NonCopyable.St Int (List Int) := emptyState

/-- First address used in the scenarios. -/
def addrA : Addr := ⟨2, le_refl 2⟩

/-- Second address used in the scenarios. -/
def addrB : Addr := ⟨3, Nat.le_succ 2⟩

/-- A store of the duplicable-mode scenarios: one guard at `addrA`, constructed with `v`,
the identity duplicate and the logging release. -/
def Copyable.single (v : Int) : Copyable.St Int (List Int) :=
  Copyable.start.write addrA { value := v, copier := identity, deleter := audit }

/-- A store of the unique-mode scenarios: one guard at `addrA`, constructed with `v` and the
logging release. -/
def NonCopyable.single (v : Int) : NonCopyable.St Int (List Int) :=
  NonCopyable.start.write addrA { value := v, deleter := audit }

/-- Two duplicable-mode guards: `v` at `addrA` and `w` at `addrB`. -/
def Copyable.pair (v w : Int) : Copyable.St Int (List Int) :=
  (Copyable.single v).write addrB { value := w, copier := identity, deleter := audit }

/-- Two unique-mode guards: `v` at `addrA` and `w` at `addrB`. -/
def NonCopyable.pair (v w : Int) : NonCopyable.St Int (List Int) :=
  (NonCopyable.single v).write addrB { value := w, deleter := audit }

/-- Third address used in the scenarios. -/
def addrC : Addr := ⟨4, Nat.le_add_left 2 2⟩

/-! ## Client programs over unique-mode guards -/

namespace NonCopyable

/-- One statement of a client program: direct construction (with the user-supplied release
action of the program), raw assignment, move construction, move assignment. -/
inductive Op (Ty : Type) where
  | construct (this : Addr) (v : Ty)
  | assign (this : Addr) (v : Ty)
  | moveConstruct (this other : Addr)
  | moveAssign (this other : Addr)

/-- Execute one statement; `release` is the user-supplied release action. -/
def step {Ty W : Type} [DecidableEq Ty] (nullValue : Ty) (release : Deleter Ty W) :
    Op Ty → St Ty W → Option (St Ty W)
  | Op.construct this v, st => ctorValue this v release st
  | Op.assign this v, st => assignValue this v st
  | Op.moveConstruct this other, st => ctorMove nullValue this other st
  | Op.moveAssign this other, st => assignMove nullValue this other st

/-- Execute the statements of a program in order. -/
def run {Ty W : Type} [DecidableEq Ty] (nullValue : Ty) (release : Deleter Ty W) :
    List (Op Ty) → St Ty W → Option (St Ty W)
  | [], st => some st
  | op :: ops, st =>
    match step nullValue release op st with
    | none => none
    | some st1 => run nullValue release ops st1

/-- Addresses of the guards a program constructs, most recently constructed last. -/
def constructed {Ty : Type} : List (Op Ty) → List Addr
  | [] => []
  | Op.construct this _ :: ops => this :: constructed ops
  | Op.moveConstruct this _ :: ops => this :: constructed ops
  | Op.assign _ _ :: ops => constructed ops
  | Op.moveAssign _ _ :: ops => constructed ops

/-- Values a program hands to a guard, at construction or by raw assignment, in order. -/
def adopted {Ty : Type} : List (Op Ty) → List Ty
  | [] => []
  | Op.construct _ v :: ops => v :: adopted ops
  | Op.assign _ v :: ops => v :: adopted ops
  | Op.moveConstruct _ _ :: ops => adopted ops
  | Op.moveAssign _ _ :: ops => adopted ops

/-- Destroy the guards at the given addresses, in the order of the list. -/
def dtorAll {Ty W : Type} : List Addr → St Ty W → Option (St Ty W)
  | [], st => some st
  | a :: rest, st =>
    match dtor a st with
    | none => none
    | some st1 => dtorAll rest st1

/-- A whole program: run the statements from the empty store with the logging release as
the user-supplied release action, then destroy every guard, in reverse order of
construction. -/
def runToEnd {Ty : Type} [DecidableEq Ty] (nullValue : Ty) (ops : List (Op Ty)) :
    Option (St Ty (List Ty)) :=
  (run nullValue audit ops emptyState).bind (dtorAll (constructed ops).reverse)

/-- Side condition on one statement: a raw assignment targets a guard that carries the
user-supplied release action, and a move assignment has two different guards. -/
def OpOk {Ty : Type} : Op Ty → St Ty (List Ty) → Prop
  | Op.assign this _, st => ∃ g, st.mem this = some g ∧ g.deleter = audit
  | Op.moveAssign this other, _ => this ≠ other
  | Op.construct _ _, _ => True
  | Op.moveConstruct _ _, _ => True

/-- A program every statement of which is defined (it uses live guards and constructs into
free storage) and satisfies `OpOk` in the store it is executed in. -/
def Admissible {Ty : Type} [DecidableEq Ty] (nullValue : Ty) :
    List (Op Ty) → St Ty (List Ty) → Prop
  | [], _ => True
  | op :: ops, st =>
    OpOk op st ∧ ∃ st1, step nullValue audit op st = some st1 ∧ Admissible nullValue ops st1

/-- How often `w` would be logged if the guard were destroyed now. -/
def weight {Ty : Type} [DecidableEq Ty] (g : UniqueKey Ty (List Ty)) (w : Ty) : Nat :=
  (g.deleter g.value []).count w

/-- The weight of the guard at address `a`, zero when there is none. -/
def owedAt {Ty : Type} [DecidableEq Ty] (mem : Addr → Option (UniqueKey Ty (List Ty)))
    (w : Ty) (a : Addr) : Nat :=
  match mem a with
  | some g => weight g w
  | none => 0

/-- How often `w` is still to be logged by the guards at the addresses `l`. -/
def owed {Ty : Type} [DecidableEq Ty] (mem : Addr → Option (UniqueKey Ty (List Ty)))
    (l : List Addr) (w : Ty) : Nat :=
  (l.map (owedAt mem w)).sum

/-- Invariant of admissible programs: `built` lists the live guards once each, every guard
carries the logging release or `NoOp`, and for every value the log and the guards together
account for exactly the adoptions `ad`. -/
structure Inv {Ty : Type} [DecidableEq Ty] (built : List Addr) (ad : List Ty)
    (st : St Ty (List Ty)) : Prop where
  nodup : built.Nodup
  dead : ∀ a, a ∉ built → st.mem a = none
  live : ∀ a, a ∈ built → ∃ g, st.mem a = some g ∧ (g.deleter = audit ∨ g.deleter = NoOp)
  count : ∀ w, st.world.count w + owed st.mem built w = ad.count w

/-- The program that leaks: G is constructed with 5, H is move-constructed from G, and the
moved-from G is then raw-assigned 9. -/
def leakProgram : List (Op Int) :=
  [Op.construct addrA 5, Op.moveConstruct addrB addrA, Op.assign addrA 9]

/-- An admissible program using all four statements. -/
def sampleProgram : List (Op Int) :=
  [Op.construct addrA 7, Op.assign addrA 9, Op.moveConstruct addrB addrA,
   Op.construct addrC 3, Op.moveAssign addrC addrB]

end NonCopyable

/-! ## Initializer construction, accessor calls, unique-mode copy and swap -/

/-- Initializer callable, `std::function<Type()>`: it acts on the world and either returns a
handle or signals a failure of type `E` (throws). -/
abbrev Initializer (Ty W E : Type) := W → Except E Ty × W

namespace NonCopyable

/-- Initializer constructor `UniqueKey(const std::function<Type()> initializer, deleter) :
value(initializer()), deleter(deleter) {}`.  When `initializer()` throws, no member has been
initialised, no object exists and the failure reaches the caller. -/
def ctorInitializer {Ty W E : Type} (this : Addr) (init : Initializer Ty W E)
    (deleter : Deleter Ty W) (st : St Ty W) : Option (Except E Unit × St Ty W) :=
  match st.mem this with
  | some _ => none
  | none =>
    match init st.world with
    | (Except.error e, w) => some (Except.error e, { mem := st.mem, world := w })
    | (Except.ok v, w) =>
      some (Except.ok (),
            { mem := Function.update st.mem this (some { value := v, deleter := deleter }),
              world := w })

/-- Copy constructor `UniqueKey(const UniqueKey&) = delete;`.  A deleted function has no
body and a program that calls it is rejected by the compiler: the call yields no store. -/
def ctorCopy {Ty W : Type} (_this _other : Addr) (_st : St Ty W) : Option (St Ty W) :=
  none

/-- Copy assignment `UniqueKey& operator=(const UniqueKey&) = delete;`: as for the deleted
copy constructor, the call yields no store. -/
def assignCopy {Ty W : Type} (_this _other : Addr) (_st : St Ty W) : Option (St Ty W) :=
  none

/-- The friend function `swap(UniqueKey& lhs, UniqueKey& rhs)` of the specialisation:
`UniqueKey temp = rhs; rhs = lhs; lhs = temp;`, after which the local `temp`, which lives at
the address `temp`, is destroyed. -/
def swap {Ty W : Type} (lhs rhs temp : Addr) (st : St Ty W) : Option (St Ty W) := do
  let st1 ← ctorCopy temp rhs st
  let st2 ← assignCopy rhs lhs st1
  let st3 ← assignCopy lhs temp st2
  dtor temp st3

/-- The call of `explicit operator bool() const` on the guard at `this`. -/
def boolAt {Ty W : Type} [DecidableEq Ty] (nullValue : Ty) (this : Addr) (st : St Ty W) :
    Option (Bool × St Ty W) :=
  match st.mem this with
  | none => none
  | some self => some (toBool nullValue self, st)

/-- The call of `operator*() const` on the guard at `this`. -/
def derefAt {Ty W : Type} (this : Addr) (st : St Ty W) : Option (Ty × St Ty W) :=
  match st.mem this with
  | none => none
  | some self => some (deref self, st)

/-- The call of `Get() const` on the guard at `this`. -/
def getAt {Ty W : Type} (this : Addr) (st : St Ty W) : Option (Ty × St Ty W) :=
  match st.mem this with
  | none => none
  | some self => some (Get self, st)

end NonCopyable

namespace Copyable

/-- Initializer constructor `UniqueKey(const std::function<Type()> initializer, copier,
deleter) : value(initializer()), copier(copier), deleter(deleter) {}`.  When `initializer()`
throws, no member has been initialised, no object exists and the failure reaches the
caller. -/
def ctorInitializer {Ty W E : Type} (this : Addr) (init : Initializer Ty W E)
    (copier : Copier Ty W) (deleter : Deleter Ty W) (st : St Ty W) :
    Option (Except E Unit × St Ty W) :=
  match st.mem this with
  | some _ => none
  | none =>
    match init st.world with
    | (Except.error e, w) => some (Except.error e, { mem := st.mem, world := w })
    | (Except.ok v, w) =>
      some (Except.ok (),
            { mem := Function.update st.mem this
                      (some { value := v, copier := copier, deleter := deleter }),
              world := w })

/-- The call of `explicit operator bool() const` on the guard at `this`. -/
def boolAt {Ty W : Type} [DecidableEq Ty] (nullValue : Ty) (this : Addr) (st : St Ty W) :
    Option (Bool × St Ty W) :=
  match st.mem this with
  | none => none
  | some self => some (toBool nullValue self, st)

/-- The call of `operator*() const` on the guard at `this`. -/
def derefAt {Ty W : Type} (this : Addr) (st : St Ty W) : Option (Ty × St Ty W) :=
  match st.mem this with
  | none => none
  | some self => some (deref self, st)

/-- The call of `Get() const` on the guard at `this`. -/
def getAt {Ty W : Type} (this : Addr) (st : St Ty W) : Option (Ty × St Ty W) :=
  match st.mem this with
  | none => none
  | some self => some (Get self, st)

end Copyable

/-- An initializer of the scenarios that returns the handle `v` and leaves the log alone. -/
def returning (v : Int) : Initializer Int (List Int) Nat := fun log => (Except.ok v, log)

/-- The initializer of scenario S6: it signals the failure `e` and leaves the log alone. -/
def failing (e : Nat) : Initializer Int (List Int) Nat := fun log => (Except.error e, log)

/-! ## The operators no ISO C++ compiler accepts -/

theorem ptrNeBool_eq_true (p : Addr) (b : Bool) : ptrNeBool p b = true := by
  have h := p.valid
  cases b <;> simp [ptrNeBool] <;> omega

/-! ## Destruction -/

/-- C1: destroying a guard of either mode that holds value v and release action r runs r
once on v and nothing else (the world becomes `r v world`), whether or not v is the null
sentinel; the guard is gone afterwards. -/
theorem dtor_releases_once {Ty W : Type}
    (stC : Copyable.St Ty W) (a : Addr) (gC : Copyable.UniqueKey Ty W)
    (hC : stC.mem a = some gC)
    (stU : NonCopyable.St Ty W) (b : Addr) (gU : NonCopyable.UniqueKey Ty W)
    (hU : stU.mem b = some gU) :
    Copyable.dtor a stC
        = some { mem := Function.update stC.mem a none,
                 world := gC.deleter gC.value stC.world }
      ∧ NonCopyable.dtor b stU
        = some { mem := Function.update stU.mem b none,
                 world := gU.deleter gU.value stU.world } := by
  constructor
  · simp [Copyable.dtor, hC]
  · simp [NonCopyable.dtor, hU]

/-- C1 witness (scenario S1): a guard constructed with 7 and the logging release leaves the
audit log `[7]` when destroyed. -/
theorem dtor_releases_once_witness :
    ((Copyable.ctorValue addrA 7 identity audit Copyable.start = some (Copyable.single 7)
        ∧ (Copyable.single 7).mem addrA = some ⟨7, identity, audit⟩)
      ∧ (NonCopyable.ctorValue addrA 7 audit NonCopyable.start = some (NonCopyable.single 7)
        ∧ (NonCopyable.single 7).mem addrA = some ⟨7, audit⟩))
    ∧ (Copyable.dtor addrA (Copyable.single 7)
          = some { mem := Function.update (Copyable.single 7).mem addrA none, world := [7] }
      ∧ NonCopyable.dtor addrA (NonCopyable.single 7)
          = some { mem := Function.update (NonCopyable.single 7).mem addrA none,
                   world := [7] }) :=
  ⟨⟨⟨rfl, by simp [Copyable.single, State.write]⟩,
    ⟨rfl, by simp [NonCopyable.single, State.write]⟩⟩,
   dtor_releases_once (Copyable.single 7) addrA ⟨7, identity, audit⟩
     (by simp [Copyable.single, State.write])
     (NonCopyable.single 7) addrA ⟨7, audit⟩ (by simp [NonCopyable.single, State.write])⟩

/-! ## Raw assignment -/

theorem foldl_audit {Ty : Type} (vs : List Ty) (log : List Ty) :
    vs.foldl (fun w v => audit v w) log = log ++ vs := by
  induction vs generalizing log with
  | nil => simp
  | cons v vs ih =>
    simp only [List.foldl_cons, ih]
    simp [audit]

theorem update_write_none {G : Type} (m : Addr → Option G) (a : Addr) (g : G)
    (h : m a = none) : Function.update (Function.update m a (some g)) a none = m := by
  rw [Function.update_idem]
  exact (Function.update_eq_self_iff).2 h.symm

theorem Copyable.duplicable_assignValues_dtor {Ty W : Type} (this : Addr) (vs : List Ty)
    (st : Copyable.St Ty W) (g : Copyable.UniqueKey Ty W) (h : st.mem this = some g) :
    (Copyable.assignValues this vs st).bind (Copyable.dtor this)
      = some { mem := Function.update st.mem this none,
               world := (g.value :: vs).foldl (fun w v => g.deleter v w) st.world } := by
  induction vs generalizing st g with
  | nil => simp [Copyable.assignValues, Copyable.dtor, h]
  | cons v vs ih =>
    have h1 : Copyable.assignValue this v st
        = some { mem := Function.update st.mem this (some { g with value := v }),
                 world := g.deleter g.value st.world } := by
      simp [Copyable.assignValue, Copyable.callDeleter, Copyable.setValue, State.write, h]
    simp only [Copyable.assignValues, h1]
    rw [ih _ { g with value := v } (by simp)]
    simp

theorem NonCopyable.assignValues_dtor {Ty W : Type} (this : Addr) (vs : List Ty)
    (st : NonCopyable.St Ty W) (g : NonCopyable.UniqueKey Ty W) (h : st.mem this = some g) :
    (NonCopyable.assignValues this vs st).bind (NonCopyable.dtor this)
      = some { mem := Function.update st.mem this none,
               world := (g.value :: vs).foldl (fun w v => g.deleter v w) st.world } := by
  induction vs generalizing st g with
  | nil => simp [NonCopyable.assignValues, NonCopyable.dtor, h]
  | cons v vs ih =>
    have h1 : NonCopyable.assignValue this v st
        = some { mem := Function.update st.mem this (some { g with value := v }),
                 world := g.deleter g.value st.world } := by
      simp [NonCopyable.assignValue, NonCopyable.callDeleter, NonCopyable.setValue,
        State.write, h]
    simp only [NonCopyable.assignValues, h1]
    rw [ih _ { g with value := v } (by simp)]
    simp

/-- C2: a guard of either mode constructed with v0 and release r, raw-assigned v1, ..., vk
(any of them possibly null) and then destroyed runs r on v0, v1, ..., vk, once each and in
that order, and nothing else: the world is the left fold of r over `v0 :: vs`, and with the
logging release the audit log grows by exactly `v0 :: vs`. -/
theorem assignments_release_in_order {Ty W : Type} (this : Addr) (v0 : Ty) (vs : List Ty)
    (c : Copier Ty W) (r : Deleter Ty W)
    (stC : Copyable.St Ty W) (hC : stC.mem this = none)
    (stU : NonCopyable.St Ty W) (hU : stU.mem this = none)
    (cL : Copier Ty (List Ty))
    (stCL : Copyable.St Ty (List Ty)) (hCL : stCL.mem this = none)
    (stUL : NonCopyable.St Ty (List Ty)) (hUL : stUL.mem this = none) :
    (((Copyable.ctorValue this v0 c r stC).bind (Copyable.assignValues this vs)).bind
          (Copyable.dtor this)
        = some { mem := stC.mem, world := (v0 :: vs).foldl (fun w v => r v w) stC.world }
      ∧ ((NonCopyable.ctorValue this v0 r stU).bind (NonCopyable.assignValues this vs)).bind
          (NonCopyable.dtor this)
        = some { mem := stU.mem, world := (v0 :: vs).foldl (fun w v => r v w) stU.world })
    ∧ (((Copyable.ctorValue this v0 cL audit stCL).bind (Copyable.assignValues this vs)).bind
          (Copyable.dtor this)
        = some { mem := stCL.mem, world := stCL.world ++ v0 :: vs }
      ∧ ((NonCopyable.ctorValue this v0 audit stUL).bind
            (NonCopyable.assignValues this vs)).bind (NonCopyable.dtor this)
        = some { mem := stUL.mem, world := stUL.world ++ v0 :: vs }) := by
  have keyC : ∀ {V : Type} (c : Copier Ty V) (r : Deleter Ty V) (st : Copyable.St Ty V),
      st.mem this = none →
      ((Copyable.ctorValue this v0 c r st).bind (Copyable.assignValues this vs)).bind
          (Copyable.dtor this)
        = some { mem := st.mem, world := (v0 :: vs).foldl (fun w v => r v w) st.world } := by
    intro V c r st h
    simp only [Copyable.ctorValue, h, Option.some_bind]
    rw [Copyable.duplicable_assignValues_dtor this vs _ ⟨v0, c, r⟩ (by simp [State.write])]
    simp [State.write, update_write_none _ _ _ h]
  have keyU : ∀ {V : Type} (r : Deleter Ty V) (st : NonCopyable.St Ty V),
      st.mem this = none →
      ((NonCopyable.ctorValue this v0 r st).bind (NonCopyable.assignValues this vs)).bind
          (NonCopyable.dtor this)
        = some { mem := st.mem, world := (v0 :: vs).foldl (fun w v => r v w) st.world } := by
    intro V r st h
    simp only [NonCopyable.ctorValue, h, Option.some_bind]
    rw [NonCopyable.assignValues_dtor this vs _ ⟨v0, r⟩ (by simp [State.write])]
    simp [State.write, update_write_none _ _ _ h]
  refine ⟨⟨keyC c r stC hC, keyU r stU hU⟩, ?_, ?_⟩
  · rw [keyC cL audit stCL hCL, foldl_audit]
  · rw [keyU audit stUL hUL, foldl_audit]

/-- C2 witness (scenario S2): construct with 7, assign 9, assign 0, destroy: the audit log
is `[7, 9, 0]`. -/
theorem assignments_release_in_order_witness :
    (Copyable.start.mem addrA = none ∧ NonCopyable.start.mem addrA = none)
    ∧ (((Copyable.ctorValue addrA 7 identity audit Copyable.start).bind
            (Copyable.assignValues addrA [9, 0])).bind (Copyable.dtor addrA)
          = some { mem := Copyable.start.mem, world := [7, 9, 0] }
      ∧ ((NonCopyable.ctorValue addrA 7 audit NonCopyable.start).bind
            (NonCopyable.assignValues addrA [9, 0])).bind (NonCopyable.dtor addrA)
          = some { mem := NonCopyable.start.mem, world := [7, 9, 0] }) :=
  ⟨⟨rfl, rfl⟩,
   (assignments_release_in_order addrA (7 : Int) [9, 0] identity audit
      Copyable.start rfl NonCopyable.start rfl identity Copyable.start rfl
      NonCopyable.start rfl).2⟩

/-! ## Move construction -/

/-- C3: move construction into fresh storage transfers the value and the actions to the new
guard, leaves the source holding the null sentinel with the no-op release (and the identity
duplicate in duplicable mode), and runs no action (the world is unchanged). -/
theorem ctorMove_transfers {Ty W : Type} (nullValue : Ty) (this other : Addr)
    (stC : Copyable.St Ty W) (gC : Copyable.UniqueKey Ty W)
    (hCfree : stC.mem this = none) (hC : stC.mem other = some gC)
    (stU : NonCopyable.St Ty W) (gU : NonCopyable.UniqueKey Ty W)
    (hUfree : stU.mem this = none) (hU : stU.mem other = some gU) :
    Copyable.ctorMove nullValue this other stC
        = some { mem := Function.update
                    (Function.update stC.mem other
                      (some { value := nullValue, copier := identity, deleter := NoOp }))
                    this (some { value := gC.value, copier := gC.copier,
                                 deleter := gC.deleter }),
                 world := stC.world }
      ∧ NonCopyable.ctorMove nullValue this other stU
        = some { mem := Function.update
                    (Function.update stU.mem other
                      (some { value := nullValue, deleter := NoOp }))
                    this (some { value := gU.value, deleter := gU.deleter }),
                 world := stU.world } := by
  constructor
  · simp [Copyable.ctorMove, hCfree, hC, State.write]
  · simp [NonCopyable.ctorMove, hUfree, hU, State.write]

theorem addrA_ne_addrB : addrA ≠ addrB := by decide

theorem addrB_ne_addrA : addrB ≠ addrA := by decide

theorem Copyable.duplicable_single_mem_addrA (v : Int) :
    (Copyable.single v).mem addrA = some ⟨v, identity, audit⟩ := by
  simp [Copyable.single, State.write]

theorem Copyable.duplicable_single_mem_addrB (v : Int) : (Copyable.single v).mem addrB = none := by
  simp [Copyable.single, State.write, Copyable.start, emptyState, addrB_ne_addrA]

theorem NonCopyable.single_mem_addrA (v : Int) :
    (NonCopyable.single v).mem addrA = some ⟨v, audit⟩ := by
  simp [NonCopyable.single, State.write]

theorem NonCopyable.single_mem_addrB (v : Int) : (NonCopyable.single v).mem addrB = none := by
  simp [NonCopyable.single, State.write, NonCopyable.start, emptyState, addrB_ne_addrA]

theorem Copyable.duplicable_pair_mem_addrA (v w : Int) :
    (Copyable.pair v w).mem addrA = some ⟨v, identity, audit⟩ := by
  simp [Copyable.pair, Copyable.single, State.write, addrA_ne_addrB]

theorem Copyable.duplicable_pair_mem_addrB (v w : Int) :
    (Copyable.pair v w).mem addrB = some ⟨w, identity, audit⟩ := by
  simp [Copyable.pair, State.write]

theorem NonCopyable.pair_mem_addrA (v w : Int) :
    (NonCopyable.pair v w).mem addrA = some ⟨v, audit⟩ := by
  simp [NonCopyable.pair, NonCopyable.single, State.write, addrA_ne_addrB]

theorem NonCopyable.pair_mem_addrB (v w : Int) :
    (NonCopyable.pair v w).mem addrB = some ⟨w, audit⟩ := by
  simp [NonCopyable.pair, State.write]

/-- C3 witness: a guard holding 5 at `addrA` is moved into fresh storage at `addrB`; the new
guard holds 5 with the logging release, the source holds 0 with `NoOp`, the log is
unchanged. -/
theorem ctorMove_transfers_witness :
    (((Copyable.single 5).mem addrB = none
        ∧ (Copyable.single 5).mem addrA = some ⟨5, identity, audit⟩)
      ∧ ((NonCopyable.single 5).mem addrB = none
        ∧ (NonCopyable.single 5).mem addrA = some ⟨5, audit⟩))
    ∧ (Copyable.ctorMove 0 addrB addrA (Copyable.single 5)
          = some { mem := Function.update
                      (Function.update (Copyable.single 5).mem addrA
                        (some { value := 0, copier := identity, deleter := NoOp }))
                      addrB (some { value := 5, copier := identity, deleter := audit }),
                   world := [] }
      ∧ NonCopyable.ctorMove 0 addrB addrA (NonCopyable.single 5)
          = some { mem := Function.update
                      (Function.update (NonCopyable.single 5).mem addrA
                        (some { value := 0, deleter := NoOp }))
                      addrB (some { value := 5, deleter := audit }),
                   world := [] }) :=
  ⟨⟨⟨Copyable.duplicable_single_mem_addrB 5, Copyable.duplicable_single_mem_addrA 5⟩,
    ⟨NonCopyable.single_mem_addrB 5, NonCopyable.single_mem_addrA 5⟩⟩,
   ctorMove_transfers 0 addrB addrA
     (Copyable.single 5) ⟨5, identity, audit⟩
     (Copyable.duplicable_single_mem_addrB 5) (Copyable.duplicable_single_mem_addrA 5)
     (NonCopyable.single 5) ⟨5, audit⟩
     (NonCopyable.single_mem_addrB 5) (NonCopyable.single_mem_addrA 5)⟩

/-! ## Move assignment -/

theorem Copyable.duplicable_assignMove_eq {Ty W : Type} [DecidableEq Ty] (nullValue : Ty)
    (this other : Addr) (hne : this ≠ other) (st : Copyable.St Ty W)
    (d s : Copyable.UniqueKey Ty W) (hd : st.mem this = some d) (hs : st.mem other = some s) :
    Copyable.assignMove nullValue this other st
      = some { mem := Function.update
                  (Function.update st.mem other
                    (some { value := nullValue, copier := identity, deleter := NoOp }))
                  this (some { value := s.value, copier := s.copier, deleter := s.deleter }),
               world := d.deleter d.value st.world } := by
  have hne2 : other ≠ this := fun h => hne h.symm
  simp [Copyable.assignMove, hd, hs, ptrNeBool_eq_true, Copyable.callDeleter,
    Copyable.exchangeValue, Copyable.setValue, Copyable.exchangeCopier, Copyable.setCopier,
    Copyable.exchangeDeleter, Copyable.setDeleter, State.write, hne, hne2,
    Function.update_noteq]
  funext x
  by_cases hx : x = this
  · subst hx; simp
  · by_cases hy : x = other
    · subst hy; simp [hx]
    · simp [hx, hy]

theorem NonCopyable.assignMove_eq {Ty W : Type} [DecidableEq Ty] (nullValue : Ty)
    (this other : Addr) (hne : this ≠ other) (st : NonCopyable.St Ty W)
    (d s : NonCopyable.UniqueKey Ty W) (hd : st.mem this = some d)
    (hs : st.mem other = some s) :
    NonCopyable.assignMove nullValue this other st
      = some { mem := Function.update
                  (Function.update st.mem other
                    (some { value := nullValue, deleter := NoOp }))
                  this (some { value := s.value, deleter := s.deleter }),
               world := d.deleter d.value st.world } := by
  have hne2 : other ≠ this := fun h => hne h.symm
  simp [NonCopyable.assignMove, hd, hs, ptrNeBool_eq_true, NonCopyable.callDeleter,
    NonCopyable.exchangeValue, NonCopyable.setValue, NonCopyable.exchangeDeleter,
    NonCopyable.setDeleter, State.write, hne, hne2, Function.update_noteq]
  funext x
  by_cases hx : x = this
  · subst hx; simp
  · by_cases hy : x = other
    · subst hy; simp [hx]
    · simp [hx, hy]

theorem Copyable.duplicable_assignMove_self {Ty W : Type} [DecidableEq Ty] (nullValue : Ty)
    (this : Addr) (st : Copyable.St Ty W) (g : Copyable.UniqueKey Ty W)
    (hg : st.mem this = some g) :
    Copyable.assignMove nullValue this this st
      = some { mem := st.mem, world := g.deleter g.value st.world } := by
  simp [Copyable.assignMove, hg, ptrNeBool_eq_true, Copyable.callDeleter,
    Copyable.exchangeValue, Copyable.setValue, Copyable.exchangeCopier, Copyable.setCopier,
    Copyable.exchangeDeleter, Copyable.setDeleter, State.write]

theorem NonCopyable.assignMove_self {Ty W : Type} [DecidableEq Ty] (nullValue : Ty)
    (this : Addr) (st : NonCopyable.St Ty W) (g : NonCopyable.UniqueKey Ty W)
    (hg : st.mem this = some g) :
    NonCopyable.assignMove nullValue this this st
      = some { mem := st.mem, world := g.deleter g.value st.world } := by
  simp [NonCopyable.assignMove, hg, ptrNeBool_eq_true, NonCopyable.callDeleter,
    NonCopyable.exchangeValue, NonCopyable.setValue, NonCopyable.exchangeDeleter,
    NonCopyable.setDeleter, State.write]

/-- In a build that accepts the comparison `this != !other`, move assignment between two
distinct guards of either mode runs the destination's release once on the destination's old
value and no other action; afterwards the destination holds the source's value and actions,
and the source holds the null sentinel with the no-op release (and the identity duplicate
in duplicable mode). -/
theorem assignMove_distinct {Ty W : Type} [DecidableEq Ty] (nullValue : Ty)
    (this other : Addr) (hne : this ≠ other)
    (stC : Copyable.St Ty W) (dC sC : Copyable.UniqueKey Ty W)
    (hCd : stC.mem this = some dC) (hCs : stC.mem other = some sC)
    (stU : NonCopyable.St Ty W) (dU sU : NonCopyable.UniqueKey Ty W)
    (hUd : stU.mem this = some dU) (hUs : stU.mem other = some sU) :
    Copyable.assignMove nullValue this other stC
        = some { mem := Function.update
                    (Function.update stC.mem other
                      (some { value := nullValue, copier := identity, deleter := NoOp }))
                    this (some { value := sC.value, copier := sC.copier,
                                 deleter := sC.deleter }),
                 world := dC.deleter dC.value stC.world }
      ∧ NonCopyable.assignMove nullValue this other stU
        = some { mem := Function.update
                    (Function.update stU.mem other
                      (some { value := nullValue, deleter := NoOp }))
                    this (some { value := sU.value, deleter := sU.deleter }),
                 world := dU.deleter dU.value stU.world } :=
  ⟨Copyable.duplicable_assignMove_eq nullValue this other hne stC dC sC hCd hCs,
   NonCopyable.assignMove_eq nullValue this other hne stU dU sU hUd hUs⟩

/-- C5: the code at the failing input.  A guard constructed with the live value 5 and the
logging release is move-assigned to itself and then destroyed: the self-assignment already
logs 5 (the guard itself is left unchanged), and the destruction logs 5 again, so the audit
log is `[5, 5]`, in both modes. -/
theorem assignMove_self_releases_twice :
    (NonCopyable.assignMove 0 addrA addrA (NonCopyable.single 5)
          = some { mem := (NonCopyable.single 5).mem, world := [5] }
      ∧ ((NonCopyable.ctorValue addrA 5 audit NonCopyable.start).bind
            (NonCopyable.assignMove 0 addrA addrA)).bind (NonCopyable.dtor addrA)
          = some { mem := NonCopyable.start.mem, world := [5, 5] })
    ∧ (Copyable.assignMove 0 addrA addrA (Copyable.single 5)
          = some { mem := (Copyable.single 5).mem, world := [5] }
      ∧ ((Copyable.ctorValue addrA 5 identity audit Copyable.start).bind
            (Copyable.assignMove 0 addrA addrA)).bind (Copyable.dtor addrA)
          = some { mem := Copyable.start.mem, world := [5, 5] }) := by
  have hU := NonCopyable.assignMove_self 0 addrA (NonCopyable.single 5) ⟨5, audit⟩
    (NonCopyable.single_mem_addrA 5)
  have hC := Copyable.duplicable_assignMove_self 0 addrA (Copyable.single 5) ⟨5, identity, audit⟩
    (Copyable.duplicable_single_mem_addrA 5)
  have cU : NonCopyable.ctorValue addrA 5 audit NonCopyable.start
      = some (NonCopyable.single 5) := rfl
  have cC : Copyable.ctorValue addrA 5 identity audit Copyable.start
      = some (Copyable.single 5) := rfl
  refine ⟨⟨hU, ?_⟩, ⟨hC, ?_⟩⟩
  · rw [cU, Option.some_bind, hU, Option.some_bind]
    simp [NonCopyable.dtor, NonCopyable.single_mem_addrA, audit, NonCopyable.single,
      State.write, update_write_none, NonCopyable.start, emptyState]
  · rw [cC, Option.some_bind, hC, Option.some_bind]
    simp [Copyable.dtor, Copyable.duplicable_single_mem_addrA, audit, Copyable.single,
      State.write, update_write_none, Copyable.start, emptyState]

/-! ## Copy construction and copy assignment (duplicable mode) -/

/-- C6: copy construction into fresh storage runs the source's duplicate action once, on the
source's value, and no release; the copy holds the duplicated value with the source's two
actions and the source is unchanged.  Destroying the source and then the copy runs the
release on the source's value and then on the duplicate. -/
theorem ctorCopy_duplicates {Ty W : Type} (this other : Addr) (st : Copyable.St Ty W)
    (A : Copyable.UniqueKey Ty W)
    (hfree : st.mem this = none) (hA : st.mem other = some A) :
    (Copyable.ctorCopy this other st
        = some { mem := Function.update st.mem this
                    (some { value := (A.copier A.value st.world).1, copier := A.copier,
                            deleter := A.deleter }),
                 world := (A.copier A.value st.world).2 }
      ∧ Function.update st.mem this
            (some { value := (A.copier A.value st.world).1, copier := A.copier,
                    deleter := A.deleter }) other = some A)
    ∧ (((Copyable.ctorCopy this other st).bind (Copyable.dtor other)).bind
          (Copyable.dtor this)
        = some { mem := Function.update st.mem other none,
                 world := A.deleter (A.copier A.value st.world).1
                    (A.deleter A.value (A.copier A.value st.world).2) }) := by
  have hne : other ≠ this := by
    intro h
    rw [h, hfree] at hA
    exact Option.noConfusion hA
  have hne2 : this ≠ other := fun h => hne h.symm
  have h1 : Copyable.ctorCopy this other st
      = some { mem := Function.update st.mem this
                  (some { value := (A.copier A.value st.world).1, copier := A.copier,
                          deleter := A.deleter }),
               world := (A.copier A.value st.world).2 } := by
    simp [Copyable.ctorCopy, hfree, hA]
  refine ⟨⟨h1, by simp [hne, hA]⟩, ?_⟩
  rw [h1]
  simp [Copyable.dtor, hne, hne2, hA]
  funext x
  by_cases hx : x = this
  · subst hx; simp [hne2, hfree]
  · by_cases hy : x = other
    · subst hy; simp [hx]
    · simp [hx, hy]

/-- C6 witness (scenario S4): A is constructed with 3 and the identity duplicate; B is
copy-constructed from A; destroying A and then B gives the audit log `[3, 3]`. -/
theorem ctorCopy_duplicates_witness :
    ((Copyable.single 3).mem addrB = none
      ∧ (Copyable.single 3).mem addrA = some ⟨3, identity, audit⟩)
    ∧ ((Copyable.ctorCopy addrB addrA (Copyable.single 3)
          = some { mem := Function.update (Copyable.single 3).mem addrB
                      (some { value := 3, copier := identity, deleter := audit }),
                   world := [] }
        ∧ Function.update (Copyable.single 3).mem addrB
              (some { value := 3, copier := identity, deleter := audit }) addrA
            = some ⟨3, identity, audit⟩)
      ∧ (((Copyable.ctorCopy addrB addrA (Copyable.single 3)).bind
              (Copyable.dtor addrA)).bind (Copyable.dtor addrB)
          = some { mem := Function.update (Copyable.single 3).mem addrA none,
                   world := [3, 3] })) :=
  ⟨⟨Copyable.duplicable_single_mem_addrB 3, Copyable.duplicable_single_mem_addrA 3⟩,
   ctorCopy_duplicates addrB addrA (Copyable.single 3) ⟨3, identity, audit⟩
     (Copyable.duplicable_single_mem_addrB 3) (Copyable.duplicable_single_mem_addrA 3)⟩

theorem Copyable.swap_eq {Ty W : Type} (lhs rhs : Addr) (st : Copyable.St Ty W)
    (l r : Copyable.UniqueKey Ty W) (hl : st.mem lhs = some l) (hr : st.mem rhs = some r) :
    Copyable.swap lhs rhs st
      = some { mem := Function.update (Function.update st.mem lhs (some r)) rhs (some l),
               world := st.world } := by
  by_cases hne : lhs = rhs
  · subst hne
    rw [hl] at hr
    cases hr
    simp [Copyable.swap, Copyable.swapValue, Copyable.swapCopier, Copyable.swapDeleter,
      Copyable.setValue, Copyable.setCopier, Copyable.setDeleter, State.write, hl]
  · have hne2 : rhs ≠ lhs := fun h => hne h.symm
    simp [Copyable.swap, Copyable.swapValue, Copyable.swapCopier, Copyable.swapDeleter,
      Copyable.setValue, Copyable.setCopier, Copyable.setDeleter, State.write, hl, hr,
      hne, hne2, Function.update_noteq]
    funext x
    by_cases hx : x = rhs
    · subst hx; simp
    · by_cases hy : x = lhs
      · subst hy; simp [hx]
      · simp [hx, hy]

/-- C7: the code at the failing input.  B holds 1 at `addrB`, A holds 2 at `addrA`, both
with the logging release.  The copy assignment `B = A` exchanges the two guards: no release
runs (the audit log stays empty), B holds 2 and A, the source, now holds 1; destroying both
afterwards logs `[1, 2]`, each value once, so B's prior handle was not released by the
assignment. -/
theorem assignCopy_swaps_with_source :
    Copyable.assignCopy addrB addrA (Copyable.pair 2 1)
        = some { mem := Function.update
                    (Function.update (Copyable.pair 2 1).mem addrB
                      (some { value := 2, copier := identity, deleter := audit }))
                    addrA (some { value := 1, copier := identity, deleter := audit }),
                 world := [] }
      ∧ (((Copyable.assignCopy addrB addrA (Copyable.pair 2 1)).bind
              (Copyable.dtor addrA)).bind (Copyable.dtor addrB)).map State.world
          = some [1, 2] := by
  have h := Copyable.swap_eq addrB addrA (Copyable.pair 2 1)
    ⟨1, identity, audit⟩ ⟨2, identity, audit⟩
    (Copyable.duplicable_pair_mem_addrB 2 1) (Copyable.duplicable_pair_mem_addrA 2 1)
  have h1 : Copyable.assignCopy addrB addrA (Copyable.pair 2 1)
      = some { mem := Function.update
                  (Function.update (Copyable.pair 2 1).mem addrB
                    (some { value := 2, copier := identity, deleter := audit }))
                  addrA (some { value := 1, copier := identity, deleter := audit }),
               world := [] } := h
  refine ⟨h1, ?_⟩
  rw [h1]
  simp [Copyable.dtor, addrA_ne_addrB, addrB_ne_addrA, audit]

/-- With the const qualifier of the source disregarded, copy-assigning a duplicable-mode
guard to itself would run neither its release nor its duplicate action and leave the store
unchanged, so that construct, self-copy-assign, destroy would run the release once, on the
constructed value. -/
theorem assignCopy_self_noop {Ty W : Type} (this : Addr)
    (st : Copyable.St Ty W) (g : Copyable.UniqueKey Ty W) (hg : st.mem this = some g)
    (v : Ty) (c : Copier Ty W) (r : Deleter Ty W)
    (st0 : Copyable.St Ty W) (hfree : st0.mem this = none) :
    Copyable.assignCopy this this st = some st
      ∧ ((Copyable.ctorValue this v c r st0).bind (Copyable.assignCopy this this)).bind
          (Copyable.dtor this)
        = some { mem := st0.mem, world := r v st0.world } := by
  have key : ∀ (s : Copyable.St Ty W) (k : Copyable.UniqueKey Ty W),
      s.mem this = some k → Copyable.assignCopy this this s = some s := by
    intro s k hk
    have h := Copyable.swap_eq this this s k k hk hk
    rw [Copyable.assignCopy, h]
    cases s with
    | mk m w =>
      simp only [Option.some.injEq, State.mk.injEq, and_true]
      rw [Function.update_idem]
      exact (Function.update_eq_self_iff).2 hk.symm
  refine ⟨key st g hg, ?_⟩
  simp only [Copyable.ctorValue, hfree, Option.some_bind]
  rw [key _ ⟨v, c, r⟩ (by simp [State.write])]
  simp [Copyable.dtor, State.write, update_write_none _ _ _ hfree]

theorem NonCopyable.ctorMove_eq {Ty W : Type} (nullValue : Ty) (this other : Addr)
    (st : NonCopyable.St Ty W) (g : NonCopyable.UniqueKey Ty W)
    (hfree : st.mem this = none) (hg : st.mem other = some g) :
    NonCopyable.ctorMove nullValue this other st
      = some { mem := Function.update
                  (Function.update st.mem other (some { value := nullValue, deleter := NoOp }))
                  this (some { value := g.value, deleter := g.deleter }),
               world := st.world } := by
  simp [NonCopyable.ctorMove, hfree, hg, State.write]

/-- C10 (as the code behaves): construct a unique-mode guard G with v and release r,
move-construct H from G, destroy G and then H.  The release r runs once, on v, when H is
destroyed; destroying the moved-from G runs only `NoOp`.  With the logging release the
audit log grows by `[v]` alone: the null sentinel is not logged. -/
theorem moved_from_dtor_silent {Ty W : Type} (nullValue v : Ty) (g h : Addr) (hne : g ≠ h)
    (r : Deleter Ty W) (st : NonCopyable.St Ty W)
    (hg : st.mem g = none) (hh : st.mem h = none)
    (stL : NonCopyable.St Ty (List Ty))
    (hgL : stL.mem g = none) (hhL : stL.mem h = none) :
    ((((NonCopyable.ctorValue g v r st).bind (NonCopyable.ctorMove nullValue h g)).bind
          (NonCopyable.dtor g)).bind (NonCopyable.dtor h)
        = some { mem := st.mem, world := r v st.world })
      ∧ ((((NonCopyable.ctorValue g v audit stL).bind
            (NonCopyable.ctorMove nullValue h g)).bind
          (NonCopyable.dtor g)).bind (NonCopyable.dtor h)
        = some { mem := stL.mem, world := stL.world ++ [v] }) := by
  have hne2 : h ≠ g := fun e => hne e.symm
  have key : ∀ {V : Type} (r : Deleter Ty V) (s : NonCopyable.St Ty V),
      s.mem g = none → s.mem h = none →
      (((NonCopyable.ctorValue g v r s).bind (NonCopyable.ctorMove nullValue h g)).bind
          (NonCopyable.dtor g)).bind (NonCopyable.dtor h)
        = some { mem := s.mem, world := r v s.world } := by
    intro V r s hsg hsh
    simp only [NonCopyable.ctorValue, hsg, Option.some_bind]
    rw [NonCopyable.ctorMove_eq nullValue h g _ ⟨v, r⟩
      (by simp [State.write, hne2, hsh]) (by simp [State.write])]
    simp [NonCopyable.dtor, State.write, hne, hne2, NoOp]
    funext x
    by_cases hx : x = h
    · subst hx; simp [hsh]
    · by_cases hy : x = g
      · subst hy; simp [hx, hsg]
      · simp [hx, hy]
  exact ⟨key r st hg hh, by rw [key audit stL hgL hhL]; rfl⟩

/-- C10 witness (scenario S3 with T = int, N = 0, v = 5): the audit log is `[5]`. -/
theorem moved_from_dtor_silent_witness :
    (addrA ≠ addrB ∧ NonCopyable.start.mem addrA = none ∧ NonCopyable.start.mem addrB = none)
    ∧ ((((NonCopyable.ctorValue addrA 5 audit NonCopyable.start).bind
            (NonCopyable.ctorMove 0 addrB addrA)).bind
          (NonCopyable.dtor addrA)).bind (NonCopyable.dtor addrB)
        = some { mem := NonCopyable.start.mem, world := [5] }) :=
  ⟨⟨addrA_ne_addrB, rfl, rfl⟩,
   (moved_from_dtor_silent (0 : Int) 5 addrA addrB addrA_ne_addrB audit
      NonCopyable.start rfl rfl NonCopyable.start rfl rfl).2⟩

/-- C10 counterexample (scenario S3): construct G with 5, move-construct H from G, destroy G
and then H.  The audit log is `[5]`, not `[0, 5]`. -/
theorem moved_from_dtor_log_counterexample :
    ((((NonCopyable.ctorValue addrA 5 audit NonCopyable.start).bind
            (NonCopyable.ctorMove 0 addrB addrA)).bind
          (NonCopyable.dtor addrA)).bind (NonCopyable.dtor addrB)).map State.world
        = some [5]
      ∧ ((((NonCopyable.ctorValue addrA 5 audit NonCopyable.start).bind
            (NonCopyable.ctorMove 0 addrB addrA)).bind
          (NonCopyable.dtor addrA)).bind (NonCopyable.dtor addrB)).map State.world
        ≠ some [0, 5] := by
  constructor
  · decide
  · decide

/-! ## Every adopted handle is released exactly once -/

namespace NonCopyable

theorem sum_map_update (l : List Addr) (hnd : l.Nodup) (a : Addr) (ha : a ∈ l)
    (f g : Addr → Nat) (hfg : ∀ x, x ≠ a → g x = f x) :
    (l.map g).sum + f a = (l.map f).sum + g a := by
  induction l with
  | nil => cases ha
  | cons x xs ih =>
    rw [List.nodup_cons] at hnd
    simp only [List.map_cons, List.sum_cons]
    by_cases hx : a = x
    · subst hx
      have hc : xs.map g = xs.map f :=
        List.map_congr_left (fun y hy => hfg y (fun e => hnd.1 (e ▸ hy)))
      rw [hc]
      omega
    · have ha2 : a ∈ xs := by
        rcases List.mem_cons.1 ha with e | e
        · exact absurd e hx
        · exact e
      have h1 := ih hnd.2 ha2
      have h2 : g x = f x := hfg x (fun e => hx e.symm)
      omega

theorem owedAt_update_same {Ty : Type} [DecidableEq Ty]
    (mem : Addr → Option (UniqueKey Ty (List Ty))) (a : Addr)
    (g : UniqueKey Ty (List Ty)) (w : Ty) :
    owedAt (Function.update mem a (some g)) w a = weight g w := by
  simp [owedAt]

theorem owedAt_update_ne {Ty : Type} [DecidableEq Ty]
    (mem : Addr → Option (UniqueKey Ty (List Ty))) (a x : Addr)
    (o : Option (UniqueKey Ty (List Ty))) (w : Ty) (h : x ≠ a) :
    owedAt (Function.update mem a o) w x = owedAt mem w x := by
  simp [owedAt, Function.update_noteq h]

theorem owedAt_of_some {Ty : Type} [DecidableEq Ty]
    (mem : Addr → Option (UniqueKey Ty (List Ty))) (a : Addr)
    (g : UniqueKey Ty (List Ty)) (w : Ty) (h : mem a = some g) :
    owedAt mem w a = weight g w := by
  simp [owedAt, h]

theorem owed_update_fresh {Ty : Type} [DecidableEq Ty]
    (mem : Addr → Option (UniqueKey Ty (List Ty))) (l : List Addr) (a : Addr)
    (o : Option (UniqueKey Ty (List Ty))) (w : Ty) (h : a ∉ l) :
    owed (Function.update mem a o) l w = owed mem l w := by
  unfold owed
  exact congrArg List.sum
    (List.map_congr_left (fun x hx => owedAt_update_ne mem a x o w (fun e => h (e ▸ hx))))

theorem owed_update_mem {Ty : Type} [DecidableEq Ty]
    (mem : Addr → Option (UniqueKey Ty (List Ty))) (l : List Addr) (hnd : l.Nodup)
    (a : Addr) (ha : a ∈ l) (g k : UniqueKey Ty (List Ty)) (w : Ty)
    (hg : mem a = some g) :
    owed (Function.update mem a (some k)) l w + weight g w = owed mem l w + weight k w := by
  have h := sum_map_update l hnd a ha (owedAt mem w)
    (owedAt (Function.update mem a (some k)) w)
    (fun x hx => owedAt_update_ne mem a x (some k) w hx)
  rw [owedAt_update_same, owedAt_of_some mem a g w hg] at h
  exact h

theorem weight_audit {Ty : Type} [DecidableEq Ty] (v w : Ty) :
    weight ({ value := v, deleter := audit } : UniqueKey Ty (List Ty)) w
      = if v = w then 1 else 0 := by
  simp [weight, audit, List.count_singleton]

theorem weight_noOp {Ty : Type} [DecidableEq Ty] (v w : Ty) :
    weight ({ value := v, deleter := NoOp } : UniqueKey Ty (List Ty)) w = 0 := by
  simp [weight, NoOp]

theorem count_release {Ty : Type} [DecidableEq Ty] (g : UniqueKey Ty (List Ty))
    (hg : g.deleter = audit ∨ g.deleter = NoOp) (log : List Ty) (w : Ty) :
    (g.deleter g.value log).count w = log.count w + weight g w := by
  rcases hg with h | h
  · simp [weight, h, audit, List.count_append]
  · simp [weight, h, NoOp]

theorem Inv.mem_of_some {Ty : Type} [DecidableEq Ty] {built : List Addr} {ad : List Ty}
    {st : St Ty (List Ty)} (hI : Inv built ad st) {a : Addr} {g : UniqueKey Ty (List Ty)}
    (h : st.mem a = some g) : a ∈ built := by
  by_contra hn
  rw [hI.dead a hn] at h
  exact Option.noConfusion h

theorem Inv.not_mem_of_none {Ty : Type} [DecidableEq Ty] {built : List Addr}
    {ad : List Ty} {st : St Ty (List Ty)} (hI : Inv built ad st) {a : Addr}
    (h : st.mem a = none) : a ∉ built := by
  intro hm
  obtain ⟨g, hg, _⟩ := hI.live a hm
  rw [h] at hg
  exact Option.noConfusion hg

theorem Inv.logging {Ty : Type} [DecidableEq Ty] {built : List Addr} {ad : List Ty}
    {st : St Ty (List Ty)} (hI : Inv built ad st) {a : Addr} {g : UniqueKey Ty (List Ty)}
    (h : st.mem a = some g) : g.deleter = audit ∨ g.deleter = NoOp := by
  obtain ⟨k, hk, hl⟩ := hI.live a (hI.mem_of_some h)
  rw [h] at hk
  cases hk
  exact hl

theorem inv_empty {Ty : Type} [DecidableEq Ty] :
    Inv [] [] (emptyState : St Ty (List Ty)) where
  nodup := List.nodup_nil
  dead := fun _ _ => rfl
  live := fun _ h => absurd h (List.not_mem_nil _)
  count := fun _ => by simp [emptyState, owed]

end NonCopyable

namespace NonCopyable

theorem inv_construct {Ty : Type} [DecidableEq Ty] {built : List Addr} {ad : List Ty}
    {st : St Ty (List Ty)} (hI : Inv built ad st) (a : Addr) (v : Ty)
    (hfree : st.mem a = none) :
    Inv (a :: built) (v :: ad) (st.write a { value := v, deleter := audit }) := by
  have hna : a ∉ built := hI.not_mem_of_none hfree
  refine ⟨List.nodup_cons.2 ⟨hna, hI.nodup⟩, ?_, ?_, ?_⟩
  · intro x hx
    have hxa : x ≠ a := fun e => hx (e ▸ List.mem_cons_self _ _)
    have hxb : x ∉ built := fun e => hx (List.mem_cons_of_mem _ e)
    simp [State.write, Function.update_noteq hxa, hI.dead x hxb]
  · intro x hx
    rcases List.mem_cons.1 hx with e | e
    · subst e
      exact ⟨{ value := v, deleter := audit }, by simp [State.write], Or.inl rfl⟩
    · have hxa : x ≠ a := fun e2 => hna (e2 ▸ e)
      obtain ⟨g, hg, hl⟩ := hI.live x e
      exact ⟨g, by simp [State.write, Function.update_noteq hxa, hg], hl⟩
  · intro w
    have h0 := hI.count w
    have h1 : owed (Function.update st.mem a (some { value := v, deleter := audit }))
        (a :: built) w = (if v = w then 1 else 0) + owed st.mem built w := by
      have h2 := owed_update_fresh st.mem built a
        (some ({ value := v, deleter := audit } : UniqueKey Ty (List Ty))) w hna
      unfold owed at h2 ⊢
      rw [List.map_cons, List.sum_cons, h2, owedAt_update_same, weight_audit]
    have h3 : (v :: ad).count w = ad.count w + (if v = w then 1 else 0) := by
      simp [List.count_cons]
    show st.world.count w + owed (Function.update st.mem a _) (a :: built) w = _
    rw [h1, h3]
    omega

theorem inv_assign {Ty : Type} [DecidableEq Ty] {built : List Addr} {ad : List Ty}
    {st : St Ty (List Ty)} (hI : Inv built ad st) (a : Addr) (v : Ty)
    (g : UniqueKey Ty (List Ty)) (hg : st.mem a = some g) (hd : g.deleter = audit) :
    Inv built (v :: ad)
      { mem := Function.update st.mem a (some { g with value := v }),
        world := g.deleter g.value st.world } := by
  have ha : a ∈ built := hI.mem_of_some hg
  refine ⟨hI.nodup, ?_, ?_, ?_⟩
  · intro x hx
    have hxa : x ≠ a := fun e => hx (e ▸ ha)
    simp [Function.update_noteq hxa, hI.dead x hx]
  · intro x hx
    by_cases hxa : x = a
    · subst hxa
      exact ⟨{ g with value := v }, by simp, Or.inl hd⟩
    · obtain ⟨k, hk, hl⟩ := hI.live x hx
      exact ⟨k, by simp [Function.update_noteq hxa, hk], hl⟩
  · intro w
    have h0 := hI.count w
    have h1 := owed_update_mem st.mem built hI.nodup a ha g { g with value := v } w hg
    have h2 : weight ({ g with value := v } : UniqueKey Ty (List Ty)) w
        = if v = w then 1 else 0 := by
      rw [← weight_audit v w, ← hd]
    have h3 : (v :: ad).count w = ad.count w + (if v = w then 1 else 0) := by
      simp [List.count_cons]
    have h4 := count_release g (Or.inl hd) st.world w
    show (g.deleter g.value st.world).count w + owed (Function.update st.mem a _) built w = _
    rw [h4, h3]
    rw [h2] at h1
    omega

theorem inv_moveConstruct {Ty : Type} [DecidableEq Ty] {built : List Addr} {ad : List Ty}
    {st : St Ty (List Ty)} (hI : Inv built ad st) (nullValue : Ty) (a b : Addr)
    (g : UniqueKey Ty (List Ty)) (hfree : st.mem a = none) (hg : st.mem b = some g) :
    Inv (a :: built) ad
      { mem := Function.update
            (Function.update st.mem b (some { value := nullValue, deleter := NoOp }))
            a (some { value := g.value, deleter := g.deleter }),
        world := st.world } := by
  have hna : a ∉ built := hI.not_mem_of_none hfree
  have hb : b ∈ built := hI.mem_of_some hg
  refine ⟨List.nodup_cons.2 ⟨hna, hI.nodup⟩, ?_, ?_, ?_⟩
  · intro x hx
    have hxa : x ≠ a := fun e => hx (e ▸ List.mem_cons_self _ _)
    have hxn : x ∉ built := fun e => hx (List.mem_cons_of_mem _ e)
    have hxb : x ≠ b := fun e => hxn (e ▸ hb)
    simp [Function.update_noteq hxa, Function.update_noteq hxb, hI.dead x hxn]
  · intro x hx
    rcases List.mem_cons.1 hx with e | e
    · subst e
      exact ⟨{ value := g.value, deleter := g.deleter }, by simp, hI.logging hg⟩
    · have hxa : x ≠ a := fun e2 => hna (e2 ▸ e)
      by_cases hxb : x = b
      · subst hxb
        exact ⟨{ value := nullValue, deleter := NoOp },
          by simp [Function.update_noteq hxa], Or.inr rfl⟩
      · obtain ⟨k, hk, hl⟩ := hI.live x e
        exact ⟨k, by simp [Function.update_noteq hxa, Function.update_noteq hxb, hk], hl⟩
  · intro w
    have h0 := hI.count w
    have h1 := owed_update_mem st.mem built hI.nodup b hb g
      { value := nullValue, deleter := NoOp } w hg
    rw [weight_noOp] at h1
    have h2 := owed_update_fresh
      (Function.update st.mem b (some { value := nullValue, deleter := NoOp })) built a
      (some ({ value := g.value, deleter := g.deleter } : UniqueKey Ty (List Ty))) w hna
    have h3 : owed (Function.update
          (Function.update st.mem b (some { value := nullValue, deleter := NoOp }))
          a (some { value := g.value, deleter := g.deleter })) (a :: built) w
        = weight g w + owed (Function.update st.mem b
            (some { value := nullValue, deleter := NoOp })) built w := by
      unfold owed at h2 ⊢
      rw [List.map_cons, List.sum_cons, h2, owedAt_update_same]
    dsimp only
    rw [h3]
    omega

theorem inv_moveAssign {Ty : Type} [DecidableEq Ty] {built : List Addr} {ad : List Ty}
    {st : St Ty (List Ty)} (hI : Inv built ad st) (nullValue : Ty) (a b : Addr)
    (hne : a ≠ b) (d s : UniqueKey Ty (List Ty))
    (hd : st.mem a = some d) (hs : st.mem b = some s) :
    Inv built ad
      { mem := Function.update
            (Function.update st.mem b (some { value := nullValue, deleter := NoOp }))
            a (some { value := s.value, deleter := s.deleter }),
        world := d.deleter d.value st.world } := by
  have ha : a ∈ built := hI.mem_of_some hd
  have hb : b ∈ built := hI.mem_of_some hs
  refine ⟨hI.nodup, ?_, ?_, ?_⟩
  · intro x hx
    have hxa : x ≠ a := fun e => hx (e ▸ ha)
    have hxb : x ≠ b := fun e => hx (e ▸ hb)
    simp [Function.update_noteq hxa, Function.update_noteq hxb, hI.dead x hx]
  · intro x hx
    by_cases hxa : x = a
    · subst hxa
      exact ⟨{ value := s.value, deleter := s.deleter }, by simp, hI.logging hs⟩
    · by_cases hxb : x = b
      · subst hxb
        exact ⟨{ value := nullValue, deleter := NoOp },
          by simp [Function.update_noteq hxa], Or.inr rfl⟩
      · obtain ⟨k, hk, hl⟩ := hI.live x hx
        exact ⟨k, by simp [Function.update_noteq hxa, Function.update_noteq hxb, hk], hl⟩
  · intro w
    have h0 := hI.count w
    have h1 := owed_update_mem st.mem built hI.nodup b hb s
      { value := nullValue, deleter := NoOp } w hs
    rw [weight_noOp] at h1
    have hd1 : Function.update st.mem b (some { value := nullValue, deleter := NoOp }) a
        = some d := by
      rw [Function.update_noteq hne]
      exact hd
    have h2 := owed_update_mem
      (Function.update st.mem b (some { value := nullValue, deleter := NoOp })) built
      hI.nodup a ha d { value := s.value, deleter := s.deleter } w hd1
    have h3 : weight ({ value := s.value, deleter := s.deleter } : UniqueKey Ty (List Ty)) w
        = weight s w := rfl
    have h4 := count_release d (hI.logging hd) st.world w
    dsimp only
    rw [h3] at h2
    rw [h4]
    omega

end NonCopyable

namespace NonCopyable

theorem assignValue_eq {Ty W : Type} (a : Addr) (v : Ty) (st : St Ty W)
    (g : UniqueKey Ty W) (hg : st.mem a = some g) :
    assignValue a v st
      = some { mem := Function.update st.mem a (some { g with value := v }),
               world := g.deleter g.value st.world } := by
  simp [assignValue, callDeleter, setValue, State.write, hg]

theorem step_inv {Ty : Type} [DecidableEq Ty] (nullValue : Ty) {built : List Addr}
    {ad : List Ty} {st : St Ty (List Ty)} (hI : Inv built ad st) (op : Op Ty)
    (st1 : St Ty (List Ty)) (hok : OpOk op st)
    (hs : step nullValue audit op st = some st1) :
    Inv (constructed [op] ++ built) (adopted [op] ++ ad) st1 := by
  cases op with
  | construct a v =>
    cases hm : st.mem a with
    | some g => simp [step, ctorValue, hm] at hs
    | none =>
      simp only [step, ctorValue, hm, Option.some.injEq] at hs
      subst hs
      exact inv_construct hI a v hm
  | assign a v =>
    obtain ⟨g, hg, hd⟩ := hok
    simp only [step, assignValue_eq a v st g hg, Option.some.injEq] at hs
    subst hs
    exact inv_assign hI a v g hg hd
  | moveConstruct a b =>
    cases hma : st.mem a with
    | some g => simp [step, ctorMove, hma] at hs
    | none =>
      cases hmb : st.mem b with
      | none => simp [step, ctorMove, hma, hmb] at hs
      | some g =>
        simp only [step, ctorMove_eq nullValue a b st g hma hmb, Option.some.injEq] at hs
        subst hs
        exact inv_moveConstruct hI nullValue a b g hma hmb
  | moveAssign a b =>
    have hne : a ≠ b := hok
    cases hma : st.mem a with
    | none => simp [step, assignMove, hma] at hs
    | some d =>
      cases hmb : st.mem b with
      | none => simp [step, assignMove, hma, hmb] at hs
      | some s =>
        simp only [step, assignMove_eq nullValue a b hne st d s hma hmb,
          Option.some.injEq] at hs
        subst hs
        exact inv_moveAssign hI nullValue a b hne d s hma hmb

theorem run_inv {Ty : Type} [DecidableEq Ty] (nullValue : Ty) :
    ∀ (ops : List (Op Ty)) (built : List Addr) (ad : List Ty) (st : St Ty (List Ty)),
      Inv built ad st → Admissible nullValue ops st →
      ∃ st1, run nullValue audit ops st = some st1
        ∧ Inv ((constructed ops).reverse ++ built) ((adopted ops).reverse ++ ad) st1
  | [], built, ad, st, hI, _ => ⟨st, rfl, by simpa [constructed, adopted] using hI⟩
  | op :: ops, built, ad, st, hI, hA => by
    obtain ⟨hok, st1, hs, hA1⟩ := hA
    have hI1 := step_inv nullValue hI op st1 hok hs
    obtain ⟨st2, hr, hI2⟩ := run_inv nullValue ops _ _ st1 hI1 hA1
    refine ⟨st2, by simp [run, hs, hr], ?_⟩
    have hc : (constructed (op :: ops)).reverse ++ built
        = (constructed ops).reverse ++ (constructed [op] ++ built) := by
      cases op <;> simp [constructed]
    have ha : (adopted (op :: ops)).reverse ++ ad
        = (adopted ops).reverse ++ (adopted [op] ++ ad) := by
      cases op <;> simp [adopted]
    rw [hc, ha]
    exact hI2

theorem dtorAll_spec {Ty : Type} [DecidableEq Ty] :
    ∀ (l : List Addr) (st : St Ty (List Ty)), l.Nodup →
      (∀ a, a ∈ l → ∃ g, st.mem a = some g ∧ (g.deleter = audit ∨ g.deleter = NoOp)) →
      ∃ st1, dtorAll l st = some st1
        ∧ (∀ a, st1.mem a = if a ∈ l then none else st.mem a)
        ∧ ∀ w, st1.world.count w = st.world.count w + owed st.mem l w
  | [], st, _, _ => ⟨st, rfl, by simp, by simp [owed]⟩
  | a :: rest, st, hnd, hlive => by
    rw [List.nodup_cons] at hnd
    obtain ⟨g, hg, hl⟩ := hlive a (List.mem_cons_self _ _)
    have hlive1 : ∀ b, b ∈ rest →
        ∃ k, (Function.update st.mem a none) b = some k
          ∧ (k.deleter = audit ∨ k.deleter = NoOp) := by
      intro b hb
      have hba : b ≠ a := fun e => hnd.1 (e ▸ hb)
      obtain ⟨k, hk, hkl⟩ := hlive b (List.mem_cons_of_mem _ hb)
      exact ⟨k, by rw [Function.update_noteq hba]; exact hk, hkl⟩
    obtain ⟨st1, hd, hmem, hcount⟩ := dtorAll_spec rest
      { mem := Function.update st.mem a none, world := g.deleter g.value st.world }
      hnd.2 hlive1
    refine ⟨st1, by simp [dtorAll, dtor, hg, hd], ?_, ?_⟩
    · intro x
      rw [hmem x]
      by_cases hxr : x ∈ rest
      · simp [hxr]
      · by_cases hxa : x = a
        · subst hxa; simp [hxr]
        · simp [hxr, hxa, Function.update_noteq hxa]
    · intro w
      rw [hcount w]
      have h1 := owed_update_fresh st.mem rest a none w hnd.1
      have h2 := count_release g hl st.world w
      have h3 : owed st.mem (a :: rest) w = weight g w + owed st.mem rest w := by
        unfold owed
        rw [List.map_cons, List.sum_cons, owedAt_of_some st.mem a g w hg]
      dsimp only
      rw [h1, h2, h3]
      omega

end NonCopyable

/-- C9 (as the code behaves): take a unique-mode program built from direct construction
with the logging release as the user-supplied release action, raw assignment, move
construction and move assignment, in which every statement is defined, every raw
assignment targets a guard that still carries the user-supplied release action (not a
moved-from guard), and every move assignment has two different guards.  Running it and then
destroying every guard succeeds, leaves no guard alive, and for every value (null or not)
the number of times the user-supplied release action was run on it equals the number of
times it was adopted, at construction or by raw assignment: each adoption is released
exactly once. -/
theorem adopted_released_exactly_once {Ty : Type} [DecidableEq Ty] (nullValue : Ty)
    (ops : List (NonCopyable.Op Ty))
    (hadm : NonCopyable.Admissible nullValue ops emptyState) :
    ∃ st, NonCopyable.runToEnd nullValue ops = some st
      ∧ st.mem = (fun _ => none)
      ∧ ∀ w, st.world.count w = (NonCopyable.adopted ops).count w := by
  obtain ⟨st1, hr, hI⟩ :=
    NonCopyable.run_inv nullValue ops [] [] emptyState NonCopyable.inv_empty hadm
  rw [List.append_nil, List.append_nil] at hI
  obtain ⟨st2, hd, hmem, hcount⟩ :=
    NonCopyable.dtorAll_spec (NonCopyable.constructed ops).reverse st1 hI.nodup hI.live
  refine ⟨st2, by simp [NonCopyable.runToEnd, hr, hd], ?_, ?_⟩
  · funext x
    rw [hmem x]
    by_cases hx : x ∈ (NonCopyable.constructed ops).reverse
    · simp [hx]
    · simp [hx, hI.dead x hx]
  · intro w
    rw [hcount w, hI.count w]
    exact (List.reverse_perm _).count_eq w

theorem NonCopyable.sampleProgram_admissible :
    NonCopyable.Admissible 0 NonCopyable.sampleProgram emptyState :=
  ⟨trivial, _, rfl, ⟨_, rfl, rfl⟩, _, rfl, trivial, _, rfl, trivial, _, rfl,
    (by decide : addrC ≠ addrB), _, rfl, trivial⟩

/-- C9 witness: the program "construct A with 7; A = 9; move-construct B from A; construct
C with 3; C = std::move(B)" is admissible; it adopts 7, 9 and 3 and its audit log after
destroying every guard is `[7, 3, 9]`. -/
theorem adopted_released_exactly_once_witness :
    NonCopyable.Admissible 0 NonCopyable.sampleProgram emptyState
      ∧ (∃ st, NonCopyable.runToEnd 0 NonCopyable.sampleProgram = some st
          ∧ st.mem = (fun _ => none)
          ∧ ∀ w, st.world.count w = (NonCopyable.adopted NonCopyable.sampleProgram).count w)
      ∧ (NonCopyable.runToEnd 0 NonCopyable.sampleProgram).map State.world = some [7, 3, 9]
      ∧ NonCopyable.adopted NonCopyable.sampleProgram = [7, 9, 3] :=
  ⟨NonCopyable.sampleProgram_admissible,
   adopted_released_exactly_once 0 NonCopyable.sampleProgram
     NonCopyable.sampleProgram_admissible,
   by decide, rfl⟩

/-- C9 counterexample: G is constructed with 5, H is move-constructed from G, the moved-from
G is raw-assigned 9, and every guard is destroyed.  The non-null handle 9 was adopted by G
but the audit log is `[5]`: 9 is never passed to the user-supplied release action. -/
theorem leak_counterexample :
    (NonCopyable.runToEnd 0 NonCopyable.leakProgram).map State.world = some [5]
      ∧ NonCopyable.adopted NonCopyable.leakProgram = [5, 9]
      ∧ ¬ (∀ st, NonCopyable.runToEnd 0 NonCopyable.leakProgram = some st →
            ∀ w, w ≠ 0 → w ∈ NonCopyable.adopted NonCopyable.leakProgram →
              st.world.count w = 1) := by
  have hw : (NonCopyable.runToEnd 0 NonCopyable.leakProgram).map State.world = some [5] := by
    decide
  refine ⟨hw, rfl, ?_⟩
  intro h
  cases hr : NonCopyable.runToEnd 0 NonCopyable.leakProgram with
  | none => simp [hr] at hw
  | some st =>
    have h9 := h st hr 9 (by decide) (by decide)
    rw [hr] at hw
    simp only [Option.map_some', Option.some.injEq] at hw
    rw [hw] at h9
    revert h9
    decide

/-! ## Swap -/

/-- C11: swap in duplicable mode exchanges the value, the duplicate action and the release
action of the two guards and runs no action: afterwards the first guard is what the second
was, the second is what the first was, every other guard and the world are unchanged. -/
theorem swap_exchanges_members {Ty W : Type} (lhs rhs : Addr) (st : Copyable.St Ty W)
    (A B : Copyable.UniqueKey Ty W)
    (hA : st.mem lhs = some A) (hB : st.mem rhs = some B) :
    Copyable.swap lhs rhs st
        = some { mem := Function.update (Function.update st.mem lhs (some B)) rhs (some A),
                 world := st.world }
      ∧ Function.update (Function.update st.mem lhs (some B)) rhs (some A) lhs = some B
      ∧ Function.update (Function.update st.mem lhs (some B)) rhs (some A) rhs = some A
      ∧ ∀ x, x ≠ lhs → x ≠ rhs →
          Function.update (Function.update st.mem lhs (some B)) rhs (some A) x
            = st.mem x := by
  refine ⟨Copyable.swap_eq lhs rhs st A B hA hB, ?_, by simp, ?_⟩
  · by_cases h : lhs = rhs
    · subst h
      rw [hA] at hB
      simp [hB]
    · simp [Function.update_noteq h]
  · intro x hx hy
    simp [Function.update_noteq hx, Function.update_noteq hy]

/-- C11 witness: guards holding 2 at `addrA` and 1 at `addrB` are swapped; afterwards 1 is
at `addrA`, 2 at `addrB`, and the audit log is still empty. -/
theorem swap_exchanges_members_witness :
    ((Copyable.pair 2 1).mem addrA = some ⟨2, identity, audit⟩
      ∧ (Copyable.pair 2 1).mem addrB = some ⟨1, identity, audit⟩)
    ∧ (Copyable.swap addrA addrB (Copyable.pair 2 1)
        = some { mem := Function.update
                    (Function.update (Copyable.pair 2 1).mem addrA
                      (some ⟨1, identity, audit⟩)) addrB (some ⟨2, identity, audit⟩),
                 world := [] }
      ∧ Function.update
            (Function.update (Copyable.pair 2 1).mem addrA (some ⟨1, identity, audit⟩))
            addrB (some ⟨2, identity, audit⟩) addrA = some ⟨1, identity, audit⟩
      ∧ Function.update
            (Function.update (Copyable.pair 2 1).mem addrA (some ⟨1, identity, audit⟩))
            addrB (some ⟨2, identity, audit⟩) addrB = some ⟨2, identity, audit⟩
      ∧ ∀ x, x ≠ addrA → x ≠ addrB →
          Function.update
            (Function.update (Copyable.pair 2 1).mem addrA (some ⟨1, identity, audit⟩))
            addrB (some ⟨2, identity, audit⟩) x = (Copyable.pair 2 1).mem x) :=
  ⟨⟨Copyable.duplicable_pair_mem_addrA 2 1, Copyable.duplicable_pair_mem_addrB 2 1⟩,
   swap_exchanges_members addrA addrB (Copyable.pair 2 1)
     ⟨2, identity, audit⟩ ⟨1, identity, audit⟩
     (Copyable.duplicable_pair_mem_addrA 2 1) (Copyable.duplicable_pair_mem_addrB 2 1)⟩

/-- C12: the code at the failing input.  The unique-mode `swap` is written with the copy
constructor and the copy assignment, which the specialisation deletes; it yields no store
for any two guards and any place of its local, in particular for the guards holding 2 and
1 of the scenario, so nothing is exchanged. -/
theorem unique_swap_unavailable :
    (∀ (Ty W : Type) (lhs rhs temp : Addr) (st : NonCopyable.St Ty W),
        NonCopyable.swap lhs rhs temp st = none)
      ∧ NonCopyable.swap addrA addrB addrC (NonCopyable.pair 2 1) = none := by
  constructor
  · intro Ty W lhs rhs temp st
    simp [NonCopyable.swap, NonCopyable.ctorCopy]
  · simp [NonCopyable.swap, NonCopyable.ctorCopy]

/-- C13: in duplicable mode, swapping two guards twice restores the value, the release
action and the duplicate action of both guards and leaves the world (the log of invoked
actions) unchanged: the store after the second swap is the store before the first. -/
theorem swap_swap_identity {Ty W : Type} (lhs rhs : Addr) (st : Copyable.St Ty W)
    (A B : Copyable.UniqueKey Ty W)
    (hA : st.mem lhs = some A) (hB : st.mem rhs = some B) :
    (Copyable.swap lhs rhs st).bind (Copyable.swap lhs rhs) = some st := by
  rw [Copyable.swap_eq lhs rhs st A B hA hB, Option.some_bind]
  by_cases h : lhs = rhs
  · subst h
    rw [hA] at hB
    cases hB
    rw [Copyable.swap_eq lhs lhs _ A A (by simp) (by simp)]
    cases st with
    | mk m w =>
      simp only [Option.some.injEq, State.mk.injEq, and_true]
      funext x
      by_cases hx : x = lhs
      · subst hx; simpa using hA.symm
      · simp [Function.update_noteq hx]
  · rw [Copyable.swap_eq lhs rhs _ B A (by simp [Function.update_noteq h]) (by simp)]
    cases st with
    | mk m w =>
      simp only [Option.some.injEq, State.mk.injEq, and_true]
      funext x
      by_cases hx : x = rhs
      · subst hx; simpa using hB.symm
      · by_cases hy : x = lhs
        · subst hy; simpa [Function.update_noteq hx] using hA.symm
        · simp [Function.update_noteq hx, Function.update_noteq hy]

/-- C13 witness: swapping the guards holding 2 and 1 twice gives back the same store. -/
theorem swap_swap_identity_witness :
    ((Copyable.pair 2 1).mem addrA = some ⟨2, identity, audit⟩
      ∧ (Copyable.pair 2 1).mem addrB = some ⟨1, identity, audit⟩)
    ∧ (Copyable.swap addrA addrB (Copyable.pair 2 1)).bind (Copyable.swap addrA addrB)
        = some (Copyable.pair 2 1) :=
  ⟨⟨Copyable.duplicable_pair_mem_addrA 2 1, Copyable.duplicable_pair_mem_addrB 2 1⟩,
   swap_swap_identity addrA addrB (Copyable.pair 2 1)
     ⟨2, identity, audit⟩ ⟨1, identity, audit⟩
     (Copyable.duplicable_pair_mem_addrA 2 1) (Copyable.duplicable_pair_mem_addrB 2 1)⟩

/-! ## Accessors and truthiness -/

/-- C14: for every guard of either mode, whatever its history, `bool(G)` is true exactly
when `Get(G)` differs from the null sentinel, dereference returns what `Get` returns, and
on an empty guard both return the null sentinel (and `bool` is false); each of the three
calls returns the store it was given, so no guard is changed and no action runs. -/
theorem accessors_agree {Ty W : Type} [DecidableEq Ty] (nullValue : Ty) (a : Addr)
    (stC : Copyable.St Ty W) (gC : Copyable.UniqueKey Ty W) (hC : stC.mem a = some gC)
    (stU : NonCopyable.St Ty W) (gU : NonCopyable.UniqueKey Ty W)
    (hU : stU.mem a = some gU) :
    ((Copyable.toBool nullValue gC = true ↔ Copyable.Get gC ≠ nullValue)
      ∧ Copyable.deref gC = Copyable.Get gC
      ∧ (gC.value = nullValue →
          Copyable.Get gC = nullValue ∧ Copyable.deref gC = nullValue
            ∧ Copyable.toBool nullValue gC = false)
      ∧ Copyable.boolAt nullValue a stC = some (Copyable.toBool nullValue gC, stC)
      ∧ Copyable.derefAt a stC = some (Copyable.deref gC, stC)
      ∧ Copyable.getAt a stC = some (Copyable.Get gC, stC))
    ∧ ((NonCopyable.toBool nullValue gU = true ↔ NonCopyable.Get gU ≠ nullValue)
      ∧ NonCopyable.deref gU = NonCopyable.Get gU
      ∧ (gU.value = nullValue →
          NonCopyable.Get gU = nullValue ∧ NonCopyable.deref gU = nullValue
            ∧ NonCopyable.toBool nullValue gU = false)
      ∧ NonCopyable.boolAt nullValue a stU = some (NonCopyable.toBool nullValue gU, stU)
      ∧ NonCopyable.derefAt a stU = some (NonCopyable.deref gU, stU)
      ∧ NonCopyable.getAt a stU = some (NonCopyable.Get gU, stU)) := by
  refine ⟨⟨?_, rfl, ?_, ?_, ?_, ?_⟩, ⟨?_, rfl, ?_, ?_, ?_, ?_⟩⟩
  · simp [Copyable.toBool, Copyable.Get]
  · intro h
    simp [Copyable.toBool, Copyable.Get, Copyable.deref, h]
  · simp [Copyable.boolAt, hC]
  · simp [Copyable.derefAt, hC]
  · simp [Copyable.getAt, hC]
  · simp [NonCopyable.toBool, NonCopyable.Get]
  · intro h
    simp [NonCopyable.toBool, NonCopyable.Get, NonCopyable.deref, h]
  · simp [NonCopyable.boolAt, hU]
  · simp [NonCopyable.derefAt, hU]
  · simp [NonCopyable.getAt, hU]

/-- C14 witness: the guards holding 5 of the scenarios, with null sentinel 0. -/
theorem accessors_agree_witness :
    ((Copyable.single 5).mem addrA = some ⟨5, identity, audit⟩
      ∧ (NonCopyable.single 5).mem addrA = some ⟨5, audit⟩)
    ∧ (((Copyable.toBool 0 (⟨5, identity, audit⟩ : Copyable.UniqueKey Int (List Int)) = true
          ↔ Copyable.Get (⟨5, identity, audit⟩ : Copyable.UniqueKey Int (List Int)) ≠ 0)
        ∧ Copyable.deref (⟨5, identity, audit⟩ : Copyable.UniqueKey Int (List Int))
            = Copyable.Get (⟨5, identity, audit⟩ : Copyable.UniqueKey Int (List Int))
        ∧ ((⟨5, identity, audit⟩ : Copyable.UniqueKey Int (List Int)).value = 0 →
            Copyable.Get (⟨5, identity, audit⟩ : Copyable.UniqueKey Int (List Int)) = 0
              ∧ Copyable.deref (⟨5, identity, audit⟩ : Copyable.UniqueKey Int (List Int)) = 0
              ∧ Copyable.toBool 0 (⟨5, identity, audit⟩ : Copyable.UniqueKey Int (List Int))
                  = false)
        ∧ Copyable.boolAt 0 addrA (Copyable.single 5)
            = some (Copyable.toBool 0 ⟨5, identity, audit⟩, Copyable.single 5)
        ∧ Copyable.derefAt addrA (Copyable.single 5)
            = some (Copyable.deref ⟨5, identity, audit⟩, Copyable.single 5)
        ∧ Copyable.getAt addrA (Copyable.single 5)
            = some (Copyable.Get ⟨5, identity, audit⟩, Copyable.single 5))
      ∧ ((NonCopyable.toBool 0 (⟨5, audit⟩ : NonCopyable.UniqueKey Int (List Int)) = true
          ↔ NonCopyable.Get (⟨5, audit⟩ : NonCopyable.UniqueKey Int (List Int)) ≠ 0)
        ∧ NonCopyable.deref (⟨5, audit⟩ : NonCopyable.UniqueKey Int (List Int))
            = NonCopyable.Get (⟨5, audit⟩ : NonCopyable.UniqueKey Int (List Int))
        ∧ ((⟨5, audit⟩ : NonCopyable.UniqueKey Int (List Int)).value = 0 →
            NonCopyable.Get (⟨5, audit⟩ : NonCopyable.UniqueKey Int (List Int)) = 0
              ∧ NonCopyable.deref (⟨5, audit⟩ : NonCopyable.UniqueKey Int (List Int)) = 0
              ∧ NonCopyable.toBool 0 (⟨5, audit⟩ : NonCopyable.UniqueKey Int (List Int))
                  = false)
        ∧ NonCopyable.boolAt 0 addrA (NonCopyable.single 5)
            = some (NonCopyable.toBool 0 ⟨5, audit⟩, NonCopyable.single 5)
        ∧ NonCopyable.derefAt addrA (NonCopyable.single 5)
            = some (NonCopyable.deref ⟨5, audit⟩, NonCopyable.single 5)
        ∧ NonCopyable.getAt addrA (NonCopyable.single 5)
            = some (NonCopyable.Get ⟨5, audit⟩, NonCopyable.single 5))) :=
  ⟨⟨Copyable.duplicable_single_mem_addrA 5, NonCopyable.single_mem_addrA 5⟩,
   accessors_agree (0 : Int) addrA (Copyable.single 5) ⟨5, identity, audit⟩
     (Copyable.duplicable_single_mem_addrA 5)
     (NonCopyable.single 5) ⟨5, audit⟩ (NonCopyable.single_mem_addrA 5)⟩

/-! ## Raw assignment: frame -/

/-- C15: raw assignment of w to a guard of either mode holding v with release r (and
duplicate d) runs r once on v and then stores w; the guard keeps r (and d), no other guard
is touched, and the guard is live afterwards exactly when w differs from the null
sentinel. -/
theorem assignValue_replaces_value {Ty W : Type} [DecidableEq Ty] (nullValue : Ty)
    (this : Addr) (w : Ty)
    (stC : Copyable.St Ty W) (gC : Copyable.UniqueKey Ty W) (hC : stC.mem this = some gC)
    (stU : NonCopyable.St Ty W) (gU : NonCopyable.UniqueKey Ty W)
    (hU : stU.mem this = some gU) :
    (Copyable.assignValue this w stC
        = some { mem := Function.update stC.mem this
                    (some { value := w, copier := gC.copier, deleter := gC.deleter }),
                 world := gC.deleter gC.value stC.world }
      ∧ (Copyable.toBool nullValue
            ({ value := w, copier := gC.copier, deleter := gC.deleter } :
              Copyable.UniqueKey Ty W) = true ↔ w ≠ nullValue))
    ∧ (NonCopyable.assignValue this w stU
        = some { mem := Function.update stU.mem this
                    (some { value := w, deleter := gU.deleter }),
                 world := gU.deleter gU.value stU.world }
      ∧ (NonCopyable.toBool nullValue
            ({ value := w, deleter := gU.deleter } : NonCopyable.UniqueKey Ty W) = true
          ↔ w ≠ nullValue)) := by
  refine ⟨⟨?_, ?_⟩, ⟨?_, ?_⟩⟩
  · simp [Copyable.assignValue, Copyable.callDeleter, Copyable.setValue, State.write, hC]
  · simp [Copyable.toBool]
  · simp [NonCopyable.assignValue, NonCopyable.callDeleter, NonCopyable.setValue,
      State.write, hU]
  · simp [NonCopyable.toBool]

/-- C15 witness: the guards holding 7 are raw-assigned 9: the log is `[7]`, the guards hold
9 with the logging release and are live. -/
theorem assignValue_replaces_value_witness :
    ((Copyable.single 7).mem addrA = some ⟨7, identity, audit⟩
      ∧ (NonCopyable.single 7).mem addrA = some ⟨7, audit⟩)
    ∧ ((Copyable.assignValue addrA 9 (Copyable.single 7)
          = some { mem := Function.update (Copyable.single 7).mem addrA
                      (some { value := 9, copier := identity, deleter := audit }),
                   world := [7] }
        ∧ (Copyable.toBool 0
              ({ value := 9, copier := identity, deleter := audit } :
                Copyable.UniqueKey Int (List Int)) = true ↔ (9 : Int) ≠ 0))
      ∧ (NonCopyable.assignValue addrA 9 (NonCopyable.single 7)
          = some { mem := Function.update (NonCopyable.single 7).mem addrA
                      (some { value := 9, deleter := audit }),
                   world := [7] }
        ∧ (NonCopyable.toBool 0
              ({ value := 9, deleter := audit } : NonCopyable.UniqueKey Int (List Int))
              = true ↔ (9 : Int) ≠ 0))) :=
  ⟨⟨Copyable.duplicable_single_mem_addrA 7, NonCopyable.single_mem_addrA 7⟩,
   assignValue_replaces_value (0 : Int) addrA 9 (Copyable.single 7) ⟨7, identity, audit⟩
     (Copyable.duplicable_single_mem_addrA 7)
     (NonCopyable.single 7) ⟨7, audit⟩ (NonCopyable.single_mem_addrA 7)⟩

/-! ## Construction -/

/-- C16: initializer construction into free storage calls the initializer once (the world
afterwards is the one the initializer left) and runs no other action.  If the initializer
returns v, the construction succeeds and the store is the one direct construction from v
with the same actions yields; if it signals a failure e, the failure is returned, no guard
exists and the release action has not run. -/
theorem ctorInitializer_outcome {Ty W E : Type} (this : Addr) (init : Initializer Ty W E)
    (c : Copier Ty W) (r : Deleter Ty W)
    (stC : Copyable.St Ty W) (hC : stC.mem this = none)
    (stU : NonCopyable.St Ty W) (hU : stU.mem this = none) :
    ((∀ v w, init stC.world = (Except.ok v, w) →
          Copyable.ctorInitializer this init c r stC
              = some (Except.ok (),
                      { mem := Function.update stC.mem this
                                (some { value := v, copier := c, deleter := r }),
                        world := w })
            ∧ Copyable.ctorValue this v c r { mem := stC.mem, world := w }
              = some { mem := Function.update stC.mem this
                                (some { value := v, copier := c, deleter := r }),
                       world := w })
      ∧ (∀ e w, init stC.world = (Except.error e, w) →
          Copyable.ctorInitializer this init c r stC
            = some (Except.error e, { mem := stC.mem, world := w })))
    ∧ ((∀ v w, init stU.world = (Except.ok v, w) →
          NonCopyable.ctorInitializer this init r stU
              = some (Except.ok (),
                      { mem := Function.update stU.mem this
                                (some { value := v, deleter := r }),
                        world := w })
            ∧ NonCopyable.ctorValue this v r { mem := stU.mem, world := w }
              = some { mem := Function.update stU.mem this
                                (some { value := v, deleter := r }),
                       world := w })
      ∧ (∀ e w, init stU.world = (Except.error e, w) →
          NonCopyable.ctorInitializer this init r stU
            = some (Except.error e, { mem := stU.mem, world := w }))) := by
  refine ⟨⟨?_, ?_⟩, ⟨?_, ?_⟩⟩
  · intro v w h
    simp [Copyable.ctorInitializer, Copyable.ctorValue, State.write, hC, h]
  · intro e w h
    simp [Copyable.ctorInitializer, hC, h]
  · intro v w h
    simp [NonCopyable.ctorInitializer, NonCopyable.ctorValue, State.write, hU, h]
  · intro e w h
    simp [NonCopyable.ctorInitializer, hU, h]

/-- C16 witness (scenario S6): constructing with the initializer that signals failure 1
returns that failure, leaves the store without a guard and the audit log empty. -/
theorem ctorInitializer_outcome_witness :
    (Copyable.start.mem addrA = none ∧ NonCopyable.start.mem addrA = none
      ∧ failing 1 Copyable.start.world = (Except.error 1, [])
      ∧ failing 1 NonCopyable.start.world = (Except.error 1, []))
    ∧ Copyable.ctorInitializer addrA (failing 1) identity audit Copyable.start
        = some (Except.error 1, { mem := Copyable.start.mem, world := [] })
    ∧ NonCopyable.ctorInitializer addrA (failing 1) audit NonCopyable.start
        = some (Except.error 1, { mem := NonCopyable.start.mem, world := [] }) :=
  ⟨⟨rfl, rfl, rfl, rfl⟩,
   (ctorInitializer_outcome addrA (failing 1) identity audit
      Copyable.start rfl NonCopyable.start rfl).1.2 1 [] rfl,
   (ctorInitializer_outcome addrA (failing 1) identity audit
      Copyable.start rfl NonCopyable.start rfl).2.2 1 [] rfl⟩

/-- C17: default construction into free storage yields, in either mode, a guard holding the
null sentinel (so `bool` is false and `Get` returns it) whose release is `NoOp`, which
leaves every world as it is, and whose duplicate, in duplicable mode, is the identity; no
action runs, and destroying the guard gives back the store as it was before. -/
theorem ctorDefault_inert {Ty W : Type} [DecidableEq Ty] (nullValue : Ty) (this : Addr)
    (stC : Copyable.St Ty W) (hC : stC.mem this = none)
    (stU : NonCopyable.St Ty W) (hU : stU.mem this = none) :
    (Copyable.ctorDefault nullValue this stC
        = some { mem := Function.update stC.mem this
                    (some { value := nullValue, copier := identity, deleter := NoOp }),
                 world := stC.world }
      ∧ Copyable.toBool nullValue
          ({ value := nullValue, copier := identity, deleter := NoOp } :
            Copyable.UniqueKey Ty W) = false
      ∧ Copyable.Get
          ({ value := nullValue, copier := identity, deleter := NoOp } :
            Copyable.UniqueKey Ty W) = nullValue
      ∧ (Copyable.ctorDefault nullValue this stC).bind (Copyable.dtor this) = some stC)
    ∧ (NonCopyable.ctorDefault nullValue this stU
        = some { mem := Function.update stU.mem this
                    (some { value := nullValue, deleter := NoOp }),
                 world := stU.world }
      ∧ NonCopyable.toBool nullValue
          ({ value := nullValue, deleter := NoOp } : NonCopyable.UniqueKey Ty W) = false
      ∧ NonCopyable.Get
          ({ value := nullValue, deleter := NoOp } : NonCopyable.UniqueKey Ty W) = nullValue
      ∧ (NonCopyable.ctorDefault nullValue this stU).bind (NonCopyable.dtor this) = some stU)
    ∧ (∀ (v : Ty) (w : W), (NoOp : Deleter Ty W) v w = w)
    ∧ (∀ (v : Ty) (w : W), (identity : Copier Ty W) v w = (v, w)) := by
  refine ⟨⟨?_, ?_, rfl, ?_⟩, ⟨?_, ?_, rfl, ?_⟩, fun _ _ => rfl, fun _ _ => rfl⟩
  · simp [Copyable.ctorDefault, State.write, hC]
  · simp [Copyable.toBool]
  · cases stC with
    | mk m w =>
      have hm : m this = none := hC
      simp [Copyable.ctorDefault, State.write, hm, Copyable.dtor, NoOp]
  · simp [NonCopyable.ctorDefault, State.write, hU]
  · simp [NonCopyable.toBool]
  · cases stU with
    | mk m w =>
      have hm : m this = none := hU
      simp [NonCopyable.ctorDefault, State.write, hm, NonCopyable.dtor, NoOp]

/-- C17 witness: default construction at `addrA` in the empty stores of the scenarios, then
destruction: the stores, with their empty audit logs, are as before. -/
theorem ctorDefault_inert_witness :
    (Copyable.start.mem addrA = none ∧ NonCopyable.start.mem addrA = none)
    ∧ (Copyable.ctorDefault 0 addrA Copyable.start).bind (Copyable.dtor addrA)
        = some Copyable.start
    ∧ (NonCopyable.ctorDefault 0 addrA NonCopyable.start).bind (NonCopyable.dtor addrA)
        = some NonCopyable.start :=
  ⟨⟨rfl, rfl⟩,
   (ctorDefault_inert (0 : Int) addrA Copyable.start rfl NonCopyable.start rfl).1.2.2.2,
   (ctorDefault_inert (0 : Int) addrA Copyable.start rfl NonCopyable.start rfl).2.1.2.2.2⟩

/-- C18: direct construction into free storage stores the value as given (null or not) and
exactly the supplied actions, so `Get` returns the value, and runs no action: the world is
unchanged. -/
theorem ctorValue_adopts {Ty W : Type} (this : Addr) (v : Ty)
    (c : Copier Ty W) (r : Deleter Ty W)
    (stC : Copyable.St Ty W) (hC : stC.mem this = none)
    (stU : NonCopyable.St Ty W) (hU : stU.mem this = none) :
    (Copyable.ctorValue this v c r stC
        = some { mem := Function.update stC.mem this
                    (some { value := v, copier := c, deleter := r }),
                 world := stC.world }
      ∧ Copyable.Get ({ value := v, copier := c, deleter := r } : Copyable.UniqueKey Ty W)
          = v)
    ∧ (NonCopyable.ctorValue this v r stU
        = some { mem := Function.update stU.mem this (some { value := v, deleter := r }),
                 world := stU.world }
      ∧ NonCopyable.Get ({ value := v, deleter := r } : NonCopyable.UniqueKey Ty W) = v) := by
  refine ⟨⟨?_, rfl⟩, ⟨?_, rfl⟩⟩
  · simp [Copyable.ctorValue, State.write, hC]
  · simp [NonCopyable.ctorValue, State.write, hU]

/-- C18 witness: direct construction with the null value 0 and the logging release at
`addrA`: the guard holds 0 with the supplied actions and the audit log is empty. -/
theorem ctorValue_adopts_witness :
    (Copyable.start.mem addrA = none ∧ NonCopyable.start.mem addrA = none)
    ∧ (Copyable.ctorValue addrA 0 identity audit Copyable.start
          = some { mem := Function.update Copyable.start.mem addrA
                      (some { value := 0, copier := identity, deleter := audit }),
                   world := [] }
        ∧ Copyable.Get
            ({ value := 0, copier := identity, deleter := audit } :
              Copyable.UniqueKey Int (List Int)) = 0)
    ∧ (NonCopyable.ctorValue addrA 0 audit NonCopyable.start
          = some { mem := Function.update NonCopyable.start.mem addrA
                      (some { value := 0, deleter := audit }),
                   world := [] }
        ∧ NonCopyable.Get
            ({ value := 0, deleter := audit } : NonCopyable.UniqueKey Int (List Int)) = 0) :=
  ⟨⟨rfl, rfl⟩,
   ctorValue_adopts addrA (0 : Int) identity audit Copyable.start rfl NonCopyable.start rfl⟩

/-! ## Inert guards -/

theorem NonCopyable.assignValues_inert {Ty W : Type} (this : Addr) (vs : List Ty)
    (st : NonCopyable.St Ty W) (v : Ty) (h : st.mem this = some ⟨v, NoOp⟩) :
    NonCopyable.assignValues this vs st
      = some { mem := Function.update st.mem this (some ⟨vs.getLastD v, NoOp⟩),
               world := st.world } := by
  induction vs generalizing st v with
  | nil =>
    cases st with
    | mk m w =>
      have hm : m this = some ⟨v, NoOp⟩ := h
      simp [NonCopyable.assignValues, ← hm]
  | cons x xs ih =>
    have h1 : NonCopyable.assignValue this x st
        = some { mem := Function.update st.mem this (some ⟨x, NoOp⟩),
                 world := st.world } := by
      simp [NonCopyable.assignValue, NonCopyable.callDeleter, NonCopyable.setValue,
        State.write, h, NoOp]
    simp only [NonCopyable.assignValues, h1]
    rw [ih _ x (by simp)]
    simp only [Function.update_idem]
    rw [List.getLastD_cons]

theorem Copyable.duplicable_assignValues_inert {Ty W : Type} (this : Addr) (vs : List Ty)
    (st : Copyable.St Ty W) (v : Ty) (c : Copier Ty W)
    (h : st.mem this = some ⟨v, c, NoOp⟩) :
    Copyable.assignValues this vs st
      = some { mem := Function.update st.mem this (some ⟨vs.getLastD v, c, NoOp⟩),
               world := st.world } := by
  induction vs generalizing st v with
  | nil =>
    cases st with
    | mk m w =>
      have hm : m this = some ⟨v, c, NoOp⟩ := h
      simp [Copyable.assignValues, ← hm]
  | cons x xs ih =>
    have h1 : Copyable.assignValue this x st
        = some { mem := Function.update st.mem this (some ⟨x, c, NoOp⟩),
                 world := st.world } := by
      simp [Copyable.assignValue, Copyable.callDeleter, Copyable.setValue,
        State.write, h, NoOp]
    simp only [Copyable.assignValues, h1]
    rw [ih _ x (by simp)]
    simp only [Function.update_idem]
    rw [List.getLastD_cons]

theorem update_swap_three {G : Type} (m : Addr → Option G) (g h : Addr) (hne : g ≠ h)
    (x y z : Option G) :
    Function.update (Function.update (Function.update m g x) h y) g z
      = Function.update (Function.update m g z) h y := by
  funext a
  by_cases ha : a = g
  · subst ha; simp [Function.update_noteq hne]
  · by_cases hb : a = h
    · subst hb; simp [Function.update_noteq ha]
    · simp [Function.update_noteq ha, Function.update_noteq hb]

/-- C20: a guard of either mode that is default-constructed, or that has been moved from by
move construction, keeps `NoOp` as its release through any raw assignments v1, ..., vk: the
assignments and the final destruction leave the world unchanged, so no user-supplied
release action runs, although after the assignments the guard holds the last assigned value
and is live whenever that value is not the null sentinel. -/
theorem inert_guard_never_releases {Ty W : Type} [DecidableEq Ty] (nullValue : Ty)
    (vs : List Ty) (a g h : Addr)
    (stD : NonCopyable.St Ty W) (hD : stD.mem a = none)
    (stM : NonCopyable.St Ty W) (src : NonCopyable.UniqueKey Ty W)
    (hMh : stM.mem h = none) (hMg : stM.mem g = some src)
    (stDC : Copyable.St Ty W) (hDC : stDC.mem a = none)
    (stMC : Copyable.St Ty W) (srcC : Copyable.UniqueKey Ty W)
    (hMCh : stMC.mem h = none) (hMCg : stMC.mem g = some srcC) :
    ((NonCopyable.ctorDefault nullValue a stD).bind (NonCopyable.assignValues a vs)
        = some { mem := Function.update stD.mem a (some ⟨vs.getLastD nullValue, NoOp⟩),
                 world := stD.world }
      ∧ ((NonCopyable.ctorDefault nullValue a stD).bind
            (NonCopyable.assignValues a vs)).bind (NonCopyable.dtor a) = some stD
      ∧ (NonCopyable.ctorMove nullValue h g stM).bind (NonCopyable.assignValues g vs)
        = some { mem := Function.update
                    (Function.update stM.mem g (some ⟨vs.getLastD nullValue, NoOp⟩))
                    h (some ⟨src.value, src.deleter⟩),
                 world := stM.world }
      ∧ ((NonCopyable.ctorMove nullValue h g stM).bind
            (NonCopyable.assignValues g vs)).bind (NonCopyable.dtor g)
        = some { mem := Function.update (Function.update stM.mem g none)
                    h (some ⟨src.value, src.deleter⟩),
                 world := stM.world }
      ∧ (NonCopyable.toBool nullValue
            (⟨vs.getLastD nullValue, NoOp⟩ : NonCopyable.UniqueKey Ty W) = true
          ↔ vs.getLastD nullValue ≠ nullValue))
    ∧ ((Copyable.ctorDefault nullValue a stDC).bind (Copyable.assignValues a vs)
        = some { mem := Function.update stDC.mem a
                    (some ⟨vs.getLastD nullValue, identity, NoOp⟩),
                 world := stDC.world }
      ∧ ((Copyable.ctorDefault nullValue a stDC).bind
            (Copyable.assignValues a vs)).bind (Copyable.dtor a) = some stDC
      ∧ (Copyable.ctorMove nullValue h g stMC).bind (Copyable.assignValues g vs)
        = some { mem := Function.update
                    (Function.update stMC.mem g
                      (some ⟨vs.getLastD nullValue, identity, NoOp⟩))
                    h (some ⟨srcC.value, srcC.copier, srcC.deleter⟩),
                 world := stMC.world }
      ∧ ((Copyable.ctorMove nullValue h g stMC).bind
            (Copyable.assignValues g vs)).bind (Copyable.dtor g)
        = some { mem := Function.update (Function.update stMC.mem g none)
                    h (some ⟨srcC.value, srcC.copier, srcC.deleter⟩),
                 world := stMC.world }
      ∧ (Copyable.toBool nullValue
            (⟨vs.getLastD nullValue, identity, NoOp⟩ : Copyable.UniqueKey Ty W) = true
          ↔ vs.getLastD nullValue ≠ nullValue)) := by
  have hne : g ≠ h := by
    intro e
    rw [e, hMh] at hMg
    exact Option.noConfusion hMg
  have hneC : g ≠ h := hne
  have d1 : (NonCopyable.ctorDefault nullValue a stD).bind (NonCopyable.assignValues a vs)
      = some { mem := Function.update stD.mem a (some ⟨vs.getLastD nullValue, NoOp⟩),
               world := stD.world } := by
    simp only [NonCopyable.ctorDefault, hD, Option.some_bind]
    rw [NonCopyable.assignValues_inert a vs _ nullValue (by simp [State.write])]
    simp [State.write]
  have m1 : (NonCopyable.ctorMove nullValue h g stM).bind (NonCopyable.assignValues g vs)
      = some { mem := Function.update
                  (Function.update stM.mem g (some ⟨vs.getLastD nullValue, NoOp⟩))
                  h (some ⟨src.value, src.deleter⟩),
               world := stM.world } := by
    rw [NonCopyable.ctorMove_eq nullValue h g stM src hMh hMg, Option.some_bind]
    rw [NonCopyable.assignValues_inert g vs _ nullValue
      (by simp [Function.update_noteq hne])]
    simp only [update_swap_three _ g h hne]
  have d1C : (Copyable.ctorDefault nullValue a stDC).bind (Copyable.assignValues a vs)
      = some { mem := Function.update stDC.mem a
                  (some ⟨vs.getLastD nullValue, identity, NoOp⟩),
               world := stDC.world } := by
    simp only [Copyable.ctorDefault, hDC, Option.some_bind]
    rw [Copyable.duplicable_assignValues_inert a vs _ nullValue identity
      (by simp [State.write])]
    simp [State.write]
  have cm : Copyable.ctorMove nullValue h g stMC
      = some { mem := Function.update
                  (Function.update stMC.mem g (some ⟨nullValue, identity, NoOp⟩))
                  h (some ⟨srcC.value, srcC.copier, srcC.deleter⟩),
               world := stMC.world } := by
    simp [Copyable.ctorMove, hMCh, hMCg, State.write]
  have m1C : (Copyable.ctorMove nullValue h g stMC).bind (Copyable.assignValues g vs)
      = some { mem := Function.update
                  (Function.update stMC.mem g
                    (some ⟨vs.getLastD nullValue, identity, NoOp⟩))
                  h (some ⟨srcC.value, srcC.copier, srcC.deleter⟩),
               world := stMC.world } := by
    rw [cm, Option.some_bind]
    rw [Copyable.duplicable_assignValues_inert g vs _ nullValue identity
      (by simp [Function.update_noteq hneC])]
    simp only [update_swap_three _ g h hneC]
  refine ⟨⟨d1, ?_, m1, ?_, ?_⟩, ⟨d1C, ?_, m1C, ?_, ?_⟩⟩
  · rw [d1]
    cases stD with
    | mk m w =>
      have hm : m a = none := hD
      simp [NonCopyable.dtor, NoOp, hm]
  · rw [m1]
    simp [NonCopyable.dtor, NoOp, Function.update_noteq hne, update_swap_three _ g h hne]
  · simp [NonCopyable.toBool]
  · rw [d1C]
    cases stDC with
    | mk m w =>
      have hm : m a = none := hDC
      simp [Copyable.dtor, NoOp, hm]
  · rw [m1C]
    simp [Copyable.dtor, NoOp, Function.update_noteq hneC, update_swap_three _ g h hneC]
  · simp [Copyable.toBool]

/-- C20 witness (T = int, N = 0): a default-constructed guard, and the guard holding 5 after
H was move-constructed from it, are raw-assigned 9 and destroyed.  The audit log stays
empty, although the guard held the live value 9: that handle is never released. -/
theorem inert_guard_never_releases_witness :
    ((NonCopyable.start.mem addrA = none
        ∧ (NonCopyable.single 5).mem addrB = none
        ∧ (NonCopyable.single 5).mem addrA = some ⟨5, audit⟩)
      ∧ (Copyable.start.mem addrA = none
        ∧ (Copyable.single 5).mem addrB = none
        ∧ (Copyable.single 5).mem addrA = some ⟨5, identity, audit⟩))
    ∧ (((NonCopyable.ctorDefault 0 addrA NonCopyable.start).bind
            (NonCopyable.assignValues addrA [9])).bind (NonCopyable.dtor addrA)
          = some NonCopyable.start
      ∧ ((NonCopyable.ctorMove 0 addrB addrA (NonCopyable.single 5)).bind
            (NonCopyable.assignValues addrA [9])).bind (NonCopyable.dtor addrA)
          = some { mem := Function.update
                      (Function.update (NonCopyable.single 5).mem addrA none)
                      addrB (some ⟨5, audit⟩),
                   world := [] }
      ∧ (NonCopyable.toBool 0
            (⟨[9].getLastD 0, NoOp⟩ : NonCopyable.UniqueKey Int (List Int)) = true
          ↔ [9].getLastD (0 : Int) ≠ 0))
    ∧ (((Copyable.ctorDefault 0 addrA Copyable.start).bind
            (Copyable.assignValues addrA [9])).bind (Copyable.dtor addrA)
          = some Copyable.start
      ∧ ((Copyable.ctorMove 0 addrB addrA (Copyable.single 5)).bind
            (Copyable.assignValues addrA [9])).bind (Copyable.dtor addrA)
          = some { mem := Function.update
                      (Function.update (Copyable.single 5).mem addrA none)
                      addrB (some ⟨5, identity, audit⟩),
                   world := [] }) := by
  have t := inert_guard_never_releases (0 : Int) [9] addrA addrA addrB
    NonCopyable.start rfl (NonCopyable.single 5) ⟨5, audit⟩
    (NonCopyable.single_mem_addrB 5) (NonCopyable.single_mem_addrA 5)
    Copyable.start rfl (Copyable.single 5) ⟨5, identity, audit⟩
    (Copyable.duplicable_single_mem_addrB 5) (Copyable.duplicable_single_mem_addrA 5)
  exact ⟨⟨⟨rfl, NonCopyable.single_mem_addrB 5, NonCopyable.single_mem_addrA 5⟩,
          ⟨rfl, Copyable.duplicable_single_mem_addrB 5,
            Copyable.duplicable_single_mem_addrA 5⟩⟩,
         ⟨t.1.2.1, t.1.2.2.2.1, t.1.2.2.2.2⟩,
         ⟨t.2.2.1, t.2.2.2.2.1⟩⟩

end euleristic
